import Mathlib

/-!
Container metrics and metadata of the k8s cluster receiver.

A shallow embedding of `receiver/k8sclusterreceiver/collection/containers.go`.

* Go `map[string]string` values are finite maps (`Finmap`): unique keys, equality is
  equality of contents, insertion overwrites.
* A `corev1.ResourceList` is an association list with unique keys; the order of its
  entries stands for the order in which `range` happens to visit the map, so a statement
  quantified over all resource lists covers every iteration order. A nil map ranges like
  the empty one and is represented by it.
* Pointers to optional state markers are `Option`s; descriptors shared by pointer are
  compared by value.
* `int32` and `int64` values are integers; conversions and arithmetic wrap explicitly.
-/

namespace K8sCluster

/-! ## Machine integers -/

/-- Two's complement wrap of an integer into the `int64` range. -/
def wrapInt64 (x : Int) : Int := (x + 2 ^ 63) % 2 ^ 64 - 2 ^ 63

/-- Two's complement wrap of an integer into the `int32` range. -/
def wrapInt32 (x : Int) : Int := (x + 2 ^ 31) % 2 ^ 32 - 2 ^ 31

/-- The values of Go's `int32`. -/
def InInt32 (x : Int) : Prop := -2 ^ 31 ≤ x ∧ x < 2 ^ 31

/-- The values of Go's `int64`. -/
def InInt64 (x : Int) : Prop := -2 ^ 63 ≤ x ∧ x < 2 ^ 63

instance (x : Int) : Decidable (InInt32 x) := by unfold InInt32; infer_instance

instance (x : Int) : Decidable (InInt64 x) := by unfold InInt64; infer_instance

/-! ## Metrics data model (`metricspb`) -/

/-- The enumeration `metricspb.MetricDescriptor_Type`. -/
inductive MetricDescriptorType where
  | UNSPECIFIED
  | GAUGE_INT64
  | GAUGE_DOUBLE
  | GAUGE_DISTRIBUTION
  | CUMULATIVE_INT64
  | CUMULATIVE_DOUBLE
  | CUMULATIVE_DISTRIBUTION
  | SUMMARY
deriving DecidableEq, Repr

/-- A `metricspb.LabelKey`. -/
structure LabelKey where
  Key : String
deriving DecidableEq, Repr

/-- A `metricspb.LabelValue`. -/
structure LabelValue where
  Value : String
deriving DecidableEq, Repr

/-- A `metricspb.MetricDescriptor`; omitted fields of the composite literals are the zero
value (`""`, `[]`). The Go field `Type` is spelled `Typ`. -/
structure MetricDescriptor where
  Name : String
  Description : String := ""
  Unit : String := ""
  Typ : MetricDescriptorType := MetricDescriptorType.UNSPECIFIED
  LabelKeys : List LabelKey := []
deriving DecidableEq, Repr

/-- Modelled from the spec: the time series record built by the helpers of the `utils`
package, which are not part of the translated file. The spec describes it as "one
observation: an integer value plus its ordered label values (empty if the descriptor
declares no labels)". -/
structure TimeSeries where
  LabelValues : List LabelValue
  Value : Int
deriving DecidableEq, Repr

/-- A `metricspb.Metric`: a descriptor and its time series. -/
structure Metric where
  MetricDescriptor : MetricDescriptor
  Timeseries : List TimeSeries
deriving DecidableEq, Repr

/-- Modelled from the spec: `utils.GetInt64TimeSeriesWithLabels` is not part of the
translated file; the spec's time series builder "wraps a scalar value (optionally with
ordered label values) into a time-series record". -/
def GetInt64TimeSeriesWithLabels (val : Int) (labelVals : List LabelValue) : TimeSeries :=
  { LabelValues := labelVals, Value := val }

/-- Modelled from the spec: `utils.GetInt64TimeSeries` is not part of the translated
file; it is the builder above without label values. -/
def GetInt64TimeSeries (val : Int) : TimeSeries :=
  GetInt64TimeSeriesWithLabels val []

/-! ## Kubernetes API objects (`corev1`) -/

/-- The `corev1.ContainerStateWaiting` marker. -/
structure ContainerStateWaiting where
  Reason : String
  Message : String := ""
deriving DecidableEq, Repr

/-- The `corev1.ContainerStateRunning` marker; the start time is a Unix time. -/
structure ContainerStateRunning where
  StartedAt : Int := 0
deriving DecidableEq, Repr

/-- The `corev1.ContainerStateTerminated` marker. -/
structure ContainerStateTerminated where
  ExitCode : Int := 0
  Signal : Int := 0
  Reason : String
  Message : String := ""
  ContainerID : String := ""
deriving DecidableEq, Repr

/-- A `corev1.ContainerState`: three independently nullable markers. -/
structure ContainerState where
  Waiting : Option ContainerStateWaiting := none
  Running : Option ContainerStateRunning := none
  Terminated : Option ContainerStateTerminated := none
deriving DecidableEq, Repr

/-- A `corev1.ContainerStatus`; `RestartCount` is an `int32`. -/
structure ContainerStatus where
  Name : String := ""
  State : ContainerState := {}
  Ready : Bool := false
  RestartCount : Int := 0
  Image : String := ""
  ImageID : String := ""
  ContainerID : String := ""
deriving DecidableEq, Repr

/-! ## Constants of the package -/

/-- The key of the status property. -/
def containerKeyStatus : String := "container.status"

/-- The key of the status reason property. -/
def containerKeyStatusReason : String := "container.status.reason"

/-- The status value of a running container. -/
def containerStatusRunning : String := "running"

/-- The status value of a waiting container. -/
def containerStatusWaiting : String := "waiting"

/-- The status value of a terminated container. -/
def containerStatusTerminated : String := "terminated"

/-- Label keys that `containers.go` uses and other files declare: `containerKeyID` and
`containerKeySpecName` of the package, and `conventions.AttributeContainerImage`. Their
values are a parameter of the functions that use them. -/
structure SharedKeys where
  containerKeyID : String
  containerKeySpecName : String
  AttributeContainerImage : String
deriving DecidableEq, Repr

/-- The descriptor of the restart count metric. -/
def containerRestartMetric : MetricDescriptor :=
  { Name := "kubernetes/container/restarts"
    Description := "How many times the container has restarted in the recent past. " ++
      "This value is pulled directly from the K8s API and the value can go indefinitely high" ++
      " and be reset to 0 at any time depending on how your kubelet is configured to prune" ++
      " dead containers. It is best to not depend too much on the exact value but rather look" ++
      " at it as either == 0, in which case you can conclude there were no restarts in the recent" ++
      " past, or > 0, in which case you can conclude there were restarts in the recent past, and" ++
      " not try and analyze the value beyond that."
    Unit := "1"
    Typ := MetricDescriptorType.GAUGE_INT64 }

/-- The descriptor of the readiness metric. -/
def containerReadyMetric : MetricDescriptor :=
  { Name := "kubernetes/container/ready"
    Description := "Whether a container has passed its readiness probe (0 for no, 1 for yes)"
    Typ := MetricDescriptorType.GAUGE_INT64 }

/-! ## Status metrics -/

/-- The function `boolToInt64`. -/
def boolToInt64 (b : Bool) : Int :=
  if b then 1 else 0

/-- The function `getStatusMetricsForContainer`: metrics about the status of the
container. `int64(cs.RestartCount)` is the conversion of an `int32` to `int64`. -/
def getStatusMetricsForContainer (cs : ContainerStatus) : List Metric :=
  [ { MetricDescriptor := containerRestartMetric
      Timeseries := [GetInt64TimeSeries (wrapInt64 cs.RestartCount)] },
    { MetricDescriptor := containerReadyMetric
      Timeseries := [GetInt64TimeSeries (boolToInt64 cs.Ready)] } ]

/-! ## Metadata -/

/-- A Go `map[string]string`. -/
abbrev StringMap := Finmap (fun _ : String => String)

/-- The record `KubernetesMetadata`, with the fields that `containers.go` sets. -/
structure KubernetesMetadata where
  resourceIDKey : String
  resourceID : String
  properties : StringMap

/-- A character that may occur in the scheme of a runtime prefix: a letter, a digit,
an underscore or a hyphen. -/
def isSchemeChar (c : Char) : Bool :=
  c.isAlphanum || c == '_' || c == '-'

/-- The characters that remain after a leading run of scheme characters followed by
`://` is removed; `none` when the characters do not start that way. -/
def dropScheme (cs : List Char) : Option (List Char) :=
  match cs.dropWhile isSchemeChar with
  | ':' :: '/' :: '/' :: rest => if (cs.takeWhile isSchemeChar).isEmpty then none else some rest
  | _ => none

/-- Modelled from the spec: `utils.StripContainerID` is not part of the translated file.
The spec says the identity value is "the container identifier with any colon-delimited
runtime prefix (e.g., a container-engine scheme prefix) stripped, leaving only the
hex/opaque ID suffix": `docker://abcd1234` becomes `abcd1234` and a bare `abcd1234` is
unchanged. A runtime prefix is a non-empty scheme name followed by `://`. -/
def StripContainerID (id : String) : String :=
  match dropScheme id.data with
  | some rest => String.mk rest
  | none => id

/-- The function `getMetadataForContainer`: three independent conditionals write the
status properties, then the record is built. -/
def getMetadataForContainer (K : SharedKeys) (cs : ContainerStatus) : KubernetesMetadata :=
  let properties : StringMap := ∅
  let properties :=
    match cs.State.Running with
    | some _ => properties.insert containerKeyStatus containerStatusRunning
    | none => properties
  let properties :=
    match cs.State.Terminated with
    | some t =>
      (properties.insert containerKeyStatus containerStatusTerminated).insert
        containerKeyStatusReason t.Reason
    | none => properties
  let properties :=
    match cs.State.Waiting with
    | some w =>
      (properties.insert containerKeyStatus containerStatusWaiting).insert
        containerKeyStatusReason w.Reason
    | none => properties
  { resourceIDKey := K.containerKeyID
    resourceID := StripContainerID cs.ContainerID
    properties := properties }

/-! ## Resource quantities (`k8s.io/apimachinery/pkg/api/resource`)

`Quantity.Value` and `Quantity.MilliValue` belong to the Kubernetes API machinery, a
dependency of the receiver. A quantity is held either as an `int64Amount`, the number
`value * 10 ^ scale`, or, when its `d.Dec` pointer is set, as a big decimal `inf.Dec`, the
number `unscaled * 10 ^ (-scale)`. Parsing yields the first form for at most 18 digits
and a scale no finer than nano, and the second form, rounded up to nano, otherwise. -/

/-- The struct `int64Amount`: an `int64` value and an `int32` decimal scale. `500m` is
`(500, -3)`, `128Mi` is `(134217728, 0)`, `1500u` is `(1500, -6)`. -/
structure int64Amount where
  value : Int := 0
  scale : Int := 0
deriving DecidableEq, Repr

/-- An `inf.Dec`: an unscaled big integer and an `int32` scale; the number
`unscaled * 10 ^ (-scale)`. -/
structure infDec where
  unscaled : Int
  scale : Int
deriving DecidableEq, Repr

/-- A `resource.Quantity`: the field `i`, and the pointer `d.Dec`, which is nil when the
quantity is held in `i`. -/
structure Quantity where
  i : int64Amount := {}
  d : Option infDec := none
deriving DecidableEq, Repr

/-- The constant `mostNegative`, the least `int64`. -/
def mostNegative : Int := -(2 ^ 63)

/-- The big integer `maxInt64`, `math.MaxInt64`. -/
def maxInt64 : Int := 2 ^ 63 - 1

/-- The scale `Milli`. -/
def Milli : Int := -3

/-- The function `int64MultiplyScale`: the wrapped product `a * b`, and whether it did not
overflow. -/
def int64MultiplyScale (a b : Int) : Int × Bool :=
  if a = 0 ∨ a = 1 then (wrapInt64 (a * b), true)
  else if a = mostNegative ∧ b ≠ 1 then (0, false)
  else
    let c := wrapInt64 (a * b)
    (c, decide (c.tdiv b = a))

/-- The function `int64MultiplyScale10`. -/
def int64MultiplyScale10 (a : Int) : Int × Bool :=
  if a = 0 ∨ a = 1 then (wrapInt64 (a * 10), true)
  else if a = mostNegative then (0, false)
  else
    let c := wrapInt64 (a * 10)
    (c, decide (c.tdiv 10 = a))

/-- The function `int64MultiplyScale100`. -/
def int64MultiplyScale100 (a : Int) : Int × Bool :=
  if a = 0 ∨ a = 1 then (wrapInt64 (a * 100), true)
  else if a = mostNegative then (0, false)
  else
    let c := wrapInt64 (a * 100)
    (c, decide (c.tdiv 100 = a))

/-- The function `int64MultiplyScale1000`. -/
def int64MultiplyScale1000 (a : Int) : Int × Bool :=
  if a = 0 ∨ a = 1 then (wrapInt64 (a * 1000), true)
  else if a = mostNegative then (0, false)
  else
    let c := wrapInt64 (a * 1000)
    (c, decide (c.tdiv 1000 = a))

/-- The fallback loop of `positiveScaleInt64`: the given number of multiplications by 10,
giving `(0, false)` as soon as one overflows. -/
def positiveScaleLoop : Nat → Int → Int × Bool
  | 0, value => (value, true)
  | n + 1, value =>
    match int64MultiplyScale value 10 with
    | (v, true) => positiveScaleLoop n v
    | (_, false) => (0, false)

/-- The function `positiveScaleInt64`: `base * 10 ^ scale`, with `false` on overflow. -/
def positiveScaleInt64 (base : Int) (scale : Int) : Int × Bool :=
  if scale = 0 then (base, true)
  else if scale = 1 then int64MultiplyScale10 base
  else if scale = 2 then int64MultiplyScale100 base
  else if scale = 3 then int64MultiplyScale1000 base
  else if scale = 6 then int64MultiplyScale base 1000000
  else if scale = 9 then int64MultiplyScale base 1000000000
  else positiveScaleLoop scale.toNat base

/-- The loop of `negativeScaleInt64` with the given number of iterations left: each one
records whether a non-zero digit is dropped and divides by 10 (truncating), and returns
early once the value is zero; after the last one an inexact result is moved away from
zero. -/
def negativeScaleLoop (base : Int) : Nat → Int → Bool → Int × Bool
  | 0, value, fraction =>
    if fraction then (if base > 0 then value + 1 else value - 1, false) else (value, true)
  | n + 1, value, fraction =>
    let fraction := fraction || decide (value.tmod 10 ≠ 0)
    let value := value.tdiv 10
    if value = 0 then
      if fraction then (if base > 0 then 1 else -1, false) else (0, true)
    else negativeScaleLoop base n value fraction

/-- The function `negativeScaleInt64`: `base / 10 ^ scale`, rounded away from zero when
inexact. -/
def negativeScaleInt64 (base : Int) (scale : Int) : Int × Bool :=
  if scale = 0 then (base, true)
  else negativeScaleLoop base scale.toNat base false

/-- The method `int64Amount.AsScaledInt64`; the difference of two scales is an `int32`. -/
def AsScaledInt64 (a : int64Amount) (scale : Int) : Int × Bool :=
  if a.scale < scale then
    ((negativeScaleInt64 a.value (wrapInt32 (scale - a.scale))).1, true)
  else positiveScaleInt64 a.value (wrapInt32 (a.scale - scale))

/-- The method `big.Int.Int64`: the low 64 bits of the absolute value as an `int64`,
negated for a negative number. -/
def bigInt64 (x : Int) : Int :=
  let v := wrapInt64 ((x.natAbs : Int) % 2 ^ 64)
  if x < 0 then wrapInt64 (-v) else v

/-- The conversion `int64(math.Pow10(n))` for a natural `n`: exact up to `10 ^ 18`; beyond
that the float does not fit and the conversion is implementation-dependent, taken here
as the least `int64`, which is what amd64 yields. -/
def pow10Int64 (n : Nat) : Int :=
  if n ≤ 18 then 10 ^ n else mostNegative

/-- The function `scaledValue` of the library: an unscaled big integer at `scale` is
brought to `newScale` and returned as an `int64`, adding one whenever scaling down leaves
a remainder. -/
def scaledValue (unscaled : Int) (scale newScale : Int) : Int :=
  let dif := scale - newScale
  if dif = 0 then bigInt64 unscaled
  else if dif < 0 then wrapInt64 (bigInt64 unscaled * pow10Int64 (-dif).toNat)
  else if unscaled < maxInt64 ∧ dif < 19 then
    let divide := pow10Int64 dif.toNat
    let result := (bigInt64 unscaled).tdiv divide
    let mod := (bigInt64 unscaled).tmod divide
    if mod ≠ 0 then wrapInt64 (result + 1) else result
  else
    let divisor : Int := 10 ^ dif.toNat
    let result := unscaled / divisor
    let remainder := unscaled % divisor
    if remainder ≠ 0 then wrapInt64 (bigInt64 result + 1) else bigInt64 result

/-- The method `Scale.infScale`: the scale of `inf.Dec` has the opposite sign. -/
def infScale (s : Int) : Int := wrapInt32 (-s)

/-- The method `Quantity.ScaledValue`. -/
def Quantity.ScaledValue (q : Quantity) (scale : Int) : Int :=
  match q.d with
  | none => (AsScaledInt64 q.i scale).1
  | some dec => scaledValue dec.unscaled dec.scale (infScale scale)

/-- The method `Quantity.Value`. -/
def Quantity.Value (q : Quantity) : Int := q.ScaledValue 0

/-- The method `Quantity.MilliValue`. -/
def Quantity.MilliValue (q : Quantity) : Int := q.ScaledValue Milli

/-- The resource name `corev1.ResourceCPU`. -/
def ResourceCPU : String := "cpu"

/-- A `corev1.ResourceList`, a map from resource names to quantities, in the order in
which `range` visits it. -/
abbrev ResourceList := AList (fun _ : String => Quantity)

/-- A `corev1.ResourceRequirements`. -/
structure ResourceRequirements where
  Limits : ResourceList := ∅
  Requests : ResourceList := ∅

/-- A `corev1.Container`, with the fields the receiver reads. -/
structure Container where
  Name : String := ""
  Image : String := ""
  Resources : ResourceRequirements := {}

/-! ## Spec metrics -/

/-- The descriptor of the resource request metric. -/
def containerRequestMetric : MetricDescriptor :=
  { Name := "kubernetes/container/request"
    Description := "Resource requested for the container"
    Typ := MetricDescriptorType.GAUGE_INT64
    LabelKeys := [{ Key := "resource" }] }

/-- The descriptor of the resource limit metric. -/
def containerLimitMetric : MetricDescriptor :=
  { Name := "kubernetes/container/limit"
    Description := "Maximum resource limit set for the container"
    Typ := MetricDescriptorType.GAUGE_INT64
    LabelKeys := [{ Key := "resource" }] }

/-- The value computed in the body of the inner loop of `getSpecMetricsForContainer`:
`v.Value()`, replaced by `v.MilliValue()` for the CPU resource. -/
def specValue (k : String) (v : Quantity) : Int :=
  let val := v.Value
  if k = ResourceCPU then v.MilliValue else val

/-- The body of the inner loop of `getSpecMetricsForContainer`: one more metric, holding
one time series labelled with the resource name. -/
def appendSpecMetric (metric : MetricDescriptor) (metrics : List Metric)
    (kv : Sigma (fun _ : String => Quantity)) : List Metric :=
  metrics ++
    [{ MetricDescriptor := metric
       Timeseries := [GetInt64TimeSeriesWithLabels (specValue kv.1 kv.2) [{ Value := kv.1 }]] }]

/-- The function `getSpecMetricsForContainer`: the outer loop visits the request
descriptor with the requests, then the limit descriptor with the limits; the inner loop
ranges over the resource list. -/
def getSpecMetricsForContainer (c : Container) : List Metric :=
  let metrics : List Metric := []
  [(containerRequestMetric, c.Resources.Requests),
    (containerLimitMetric, c.Resources.Limits)].foldl
    (fun metrics t => t.2.entries.foldl (appendSpecMetric t.1) metrics) metrics

/-- The quantity `500m`. -/
def q500m : Quantity := { i := { value := 500, scale := -3 } }

/-- The quantity `128Mi`. -/
def q128Mi : Quantity := { i := { value := 134217728, scale := 0 } }

/-- The quantity `1500u`, 1500 micro-units. -/
def q1500u : Quantity := { i := { value := 1500, scale := -6 } }

/-- A resource list from a list of pairs, later pairs overwriting earlier ones. -/
def ResourceList.ofPairs (l : List (String × Quantity)) : ResourceList :=
  l.foldl (fun m kv => m.insert kv.1 kv.2) ∅

/-- A string map from a list of pairs, written in the order of assignment: later pairs
overwrite earlier ones. -/
def StringMap.ofList (l : List (String × String)) : StringMap :=
  l.foldl (fun m kv => m.insert kv.1 kv.2) ∅

/-- Sample values for the shared label keys, used in the worked examples. -/
def sampleKeys : SharedKeys :=
  { containerKeyID := "container.id"
    containerKeySpecName := "container.spec.name"
    AttributeContainerImage := "container.image.name" }

/-- The property mapping that the specification prescribes: an if / else-if chain with
precedence running, then terminated, then waiting. -/
def statusPropertiesSpec (s : ContainerState) : StringMap :=
  match s.Running, s.Terminated, s.Waiting with
  | some _, _, _ => StringMap.ofList [(containerKeyStatus, containerStatusRunning)]
  | none, some t, _ =>
    StringMap.ofList [(containerKeyStatus, containerStatusTerminated),
      (containerKeyStatusReason, t.Reason)]
  | none, none, some w =>
    StringMap.ofList [(containerKeyStatus, containerStatusWaiting),
      (containerKeyStatusReason, w.Reason)]
  | none, none, none => ∅

/-- A status that is both running and terminated (out of memory). -/
def csRunningTerminated : ContainerStatus :=
  { Name := "app"
    State := { Running := some {}, Terminated := some { Reason := "OOMKilled" } } }

/-- The time series that a list of metrics holds under a descriptor, in order. -/
def timeSeriesOf (d : MetricDescriptor) (ms : List Metric) : List TimeSeries :=
  (ms.filter (fun m => decide (m.MetricDescriptor = d))).flatMap (fun m => m.Timeseries)

/-- The metrics of a list that carry a descriptor. -/
def metricsOf (d : MetricDescriptor) (ms : List Metric) : List Metric :=
  ms.filter (fun m => decide (m.MetricDescriptor = d))

/-- The numeric value of a quantity: `value * 10 ^ scale` for an `int64Amount`,
`unscaled * 10 ^ (-scale)` for a big decimal. -/
def Quantity.toRat (q : Quantity) : ℚ :=
  match q.d with
  | none => (q.i.value : ℚ) * (10 : ℚ) ^ q.i.scale
  | some dec => (dec.unscaled : ℚ) * (10 : ℚ) ^ (-dec.scale)

/-- The values a quantity can hold: the value of an `int64Amount` is an `int64`, scales
are `int32`s, and the scale of an `int64Amount` is not the least `int32`, whose negation
is not an `int32`. -/
def Quantity.WellFormed (q : Quantity) : Prop :=
  InInt64 q.i.value ∧ -2 ^ 31 < q.i.scale ∧ q.i.scale < 2 ^ 31 ∧
    match q.d with
    | none => True
    | some dec => InInt32 dec.scale

instance (q : Quantity) : Decidable q.WellFormed := by
  unfold Quantity.WellFormed
  cases q.d <;> infer_instance

/-- A container requesting `cpu: 500m` and `memory: 128Mi`. -/
def cCpuMemory : Container :=
  { Name := "app"
    Resources := { Requests := ResourceList.ofPairs [("cpu", q500m), ("memory", q128Mi)] } }

/-- A container requesting `cpu: 1500u`, a quantity finer than one milli-unit. -/
def cMicroCpu : Container :=
  { Name := "app"
    Resources := { Requests := ResourceList.ofPairs [("cpu", q1500u)] } }

/-- The quantity `10E15`, ten to the sixteenth units. -/
def q10E15 : Quantity := { i := { value := 10, scale := 15 } }

/-- A container requesting `cpu: 10E15`, whose milli-value exceeds every `int64`. -/
def cHugeCpu : Container :=
  { Name := "app"
    Resources := { Requests := ResourceList.ofPairs [("cpu", q10E15)] } }

/-! ## Label maps and resources

Go maps are reference values: `getAllContainerLabels` receives a reference to the
caller's map and returns a reference to another one. The maps allocated so far form a
heap; the functions that allocate or assign take the heap and return the new one. -/

/-- A reference to a Go map: an index into the heap, or `none` for the nil map. -/
abbrev MapRef := Option Nat

/-- The maps allocated so far. -/
structure MapHeap where
  cells : List StringMap

/-- A reference is valid when it is nil or points to an allocated map. -/
def MapHeap.Valid (h : MapHeap) : MapRef → Prop
  | none => True
  | some i => i < h.cells.length

instance (h : MapHeap) (r : MapRef) : Decidable (h.Valid r) := by
  cases r <;> unfold MapHeap.Valid <;> infer_instance

/-- The contents of the map behind a reference; the nil map reads as an empty map. -/
def MapHeap.get (h : MapHeap) : MapRef → StringMap
  | none => ∅
  | some i => (h.cells[i]?).getD ∅

/-- Allocation of a new map with the given contents, as `make` followed by assignments
does: the heap grows by one cell and the new reference points to it. -/
def MapHeap.alloc (h : MapHeap) (m : StringMap) : MapHeap × MapRef :=
  ({ cells := h.cells ++ [m] }, some h.cells.length)

/-- The assignment `m[k] = v`: the map behind the reference is updated in place.
Assigning to the nil map panics, which is `none`. -/
def MapHeap.assign (h : MapHeap) (r : MapRef) (k v : String) : Option MapHeap :=
  match r with
  | none => none
  | some i =>
    if i < h.cells.length then
      some { cells := h.cells.set i ((h.get (some i)).insert k v) }
    else none

/-- Modelled from the spec: `utils.CloneStringMap` is not part of the translated file.
The spec has the label composer "start from a duplicate of the inherited mapping (copy,
not shared ownership — mutations to the output must never affect the caller's original
mapping)": a newly allocated map that holds the entries of the argument. -/
def CloneStringMap (h : MapHeap) (m : MapRef) : MapHeap × MapRef :=
  h.alloc (h.get m)

/-- The function `getAllContainerLabels`: all container labels, including the ones
inherited from the pod. The clone is assigned the container ID, the container name and
the image, in this order. -/
def getAllContainerLabels (K : SharedKeys) (cs : ContainerStatus) (h : MapHeap)
    (dims : MapRef) : Option (MapHeap × MapRef) := do
  let (h, out) := CloneStringMap h dims
  let h ← h.assign out K.containerKeyID (StripContainerID cs.ContainerID)
  let h ← h.assign out K.containerKeySpecName cs.Name
  let h ← h.assign out K.AttributeContainerImage cs.Image
  return (h, out)

/-- Modelled from the spec: the constant `containerType` is declared outside the
translated file; the spec gives the resource envelope the "type tag \"container\"". -/
def containerType : String := "container"

/-- A `resourcepb.Resource`: a type tag and a reference to the label map. The Go field
`Type` is spelled `Typ`. -/
structure Resource where
  Typ : String
  Labels : MapRef
deriving DecidableEq, Repr

/-- The function `getResourceForContainer`: the resource holds the very map it is given. -/
def getResourceForContainer (labels : MapRef) : Resource :=
  { Typ := containerType, Labels := labels }

/-- The keys of `SharedKeys` are three different constants. -/
def SharedKeys.Distinct (K : SharedKeys) : Prop :=
  K.containerKeyID ≠ K.containerKeySpecName ∧
  K.containerKeyID ≠ K.AttributeContainerImage ∧
  K.containerKeySpecName ≠ K.AttributeContainerImage

instance (K : SharedKeys) : Decidable K.Distinct := by
  unfold SharedKeys.Distinct; infer_instance

/-- The labels that `getAllContainerLabels` leaves in the returned map, given the
contents of the inherited map. -/
def mergedLabels (K : SharedKeys) (cs : ContainerStatus) (dims : StringMap) : StringMap :=
  ((dims.insert K.containerKeyID (StripContainerID cs.ContainerID)).insert
    K.containerKeySpecName cs.Name).insert K.AttributeContainerImage cs.Image

/-- A container status with a runtime-prefixed ID, a name and an image. -/
def csSample : ContainerStatus :=
  { Name := "c1", Image := "img:tag", ContainerID := "docker://abcd1234",
    State := { Running := some {} }, Ready := true }

/-- A heap holding one map, the inherited labels of a pod; the map already has an entry
under the container ID key. -/
def heapSample : MapHeap :=
  { cells := [StringMap.ofList [("pod", "p1"), ("zone", "a"), ("container.id", "stale")]] }

/-- A status with all three state markers set. -/
def csAllMarkers : ContainerStatus :=
  { Name := "app"
    State := { Running := some {}, Terminated := some { Reason := "OOMKilled" },
               Waiting := some { Reason := "CrashLoopBackOff" } } }

end K8sCluster

/-! ## The JMX metrics extension (`extension/jmxmetricextension/factory.go`) -/

namespace JMXMetricExtension

/-- A `time.Duration`: a number of nanoseconds. -/
abbrev Duration := Int

/-- The constant `time.Second`. -/
def Second : Duration := 1000000000

/-- The type string of the extension. -/
def typeStr : String := "jmx_metrics"

/-- The name of the OTLP exporter. -/
def otlpExporter : String := "otlp"

/-- The default OTLP endpoint. -/
def otlpEndpoint : String := "localhost:55680"

/-- The name of the Prometheus exporter. -/
def prometheusExporter : String := "prometheus"

/-- The default Prometheus host. -/
def prometheusEndpoint : String := "localhost"

/-- The default Prometheus port. -/
def prometheusPort : Int := 9090

/-- The `configmodels.ExtensionSettings` embedded in the configuration. -/
structure ExtensionSettings where
  TypeVal : String
  NameVal : String
deriving DecidableEq, Repr

/-- The struct `config` of the extension, with the fields that `createDefaultConfig`
sets. -/
structure config where
  ExtensionSettings : ExtensionSettings
  JARPath : String
  Interval : Duration
  Exporter : String
  OTLPEndpoint : String
  OTLPTimeout : Duration
  PrometheusHost : String
  PrometheusPort : Int
deriving DecidableEq, Repr

/-- The function `createDefaultConfig`; it takes no argument. -/
def createDefaultConfig (_ : Unit) : config :=
  { ExtensionSettings := { TypeVal := typeStr, NameVal := typeStr }
    JARPath := "/opt/opentelemetry-java-contrib-jmx-metrics.jar"
    Interval := 10 * Second
    Exporter := otlpExporter
    OTLPEndpoint := otlpEndpoint
    OTLPTimeout := 5 * Second
    PrometheusHost := prometheusEndpoint
    PrometheusPort := prometheusPort }

end JMXMetricExtension

namespace K8sCluster

/-- The quantity `10000000000000000`, ten to the sixteenth units; times 1000 it exceeds
every `int64`. -/
def q1E16 : Quantity := { i := { value := 10000000000000000, scale := 0 } }

/-- A container requesting `cpu: 10000000000000000`. -/
def cOverflowCpu : Container :=
  { Name := "app"
    Resources := { Requests := ResourceList.ofPairs [("cpu", q1E16)] } }

/-- The quantity `1500m`, one and a half units. -/
def q1500m : Quantity := { i := { value := 1500, scale := -3 } }

/-- A container requesting `memory: 1500m`. -/
def cFractionalMemory : Container :=
  { Name := "app"
    Resources := { Requests := ResourceList.ofPairs [("memory", q1500m)] } }

/-- The quantity that `-0.1n` parses to: finer than nano, it is held as a big decimal and
rounded away from zero to minus one nano-unit. -/
def qMinusTenthNano : Quantity := { d := some { unscaled := -1, scale := 9 } }

/-- A container requesting `cpu: -0.1n`. -/
def cNegativeCpu : Container :=
  { Name := "app"
    Resources := { Requests := ResourceList.ofPairs [("cpu", qMinusTenthNano)] } }

/-- The quantity `2`. -/
def q2 : Quantity := { i := { value := 2, scale := 0 } }

/-- The quantity `1G`, ten to the ninth units. -/
def q1G : Quantity := { i := { value := 1, scale := 9 } }

/-- A container with the limits `cpu: 2` and `memory: 1G`. -/
def cLimits : Container :=
  { Name := "app"
    Resources := { Limits := ResourceList.ofPairs [("cpu", q2), ("memory", q1G)] } }

/-- A quantity held as a big decimal: 1500001 nano-units, a little more than one and a
half milli-units. -/
def qDecimalCpu : Quantity := { d := some { unscaled := 1500001, scale := 9 } }

/-- A container with the limit `cpu` held as a big decimal. -/
def cDecimalCpu : Container :=
  { Name := "app"
    Resources := { Limits := ResourceList.ofPairs [("cpu", qDecimalCpu)] } }

/-! ## Basic facts -/

theorem wrapInt64_of_inInt64 {x : Int} (h : InInt64 x) : wrapInt64 x = x := by
  unfold InInt64 at h
  unfold wrapInt64
  norm_num at h ⊢
  omega

theorem inInt64_of_inInt32 {x : Int} (h : InInt32 x) : InInt64 x := by
  unfold InInt32 at h
  unfold InInt64
  norm_num at h ⊢
  omega

theorem status_ne_reason : containerKeyStatus ≠ containerKeyStatusReason := by decide

/-- Writing the status and the reason over a map that holds no other key leaves exactly
these two entries. -/
theorem insert_status_reason (m : StringMap) (s r : String)
    (hm : ∀ x, x ∈ m → x = containerKeyStatus ∨ x = containerKeyStatusReason) :
    (m.insert containerKeyStatus s).insert containerKeyStatusReason r =
      StringMap.ofList [(containerKeyStatus, s), (containerKeyStatusReason, r)] := by
  apply Finmap.ext_lookup
  intro x
  simp only [StringMap.ofList, List.foldl_cons, List.foldl_nil]
  by_cases h1 : x = containerKeyStatusReason
  · subst h1
    simp [Finmap.lookup_insert]
  · rw [Finmap.lookup_insert_of_ne _ h1, Finmap.lookup_insert_of_ne _ h1]
    by_cases h2 : x = containerKeyStatus
    · subst h2
      simp [Finmap.lookup_insert]
    · rw [Finmap.lookup_insert_of_ne _ h2, Finmap.lookup_insert_of_ne _ h2]
      have hx : x ∉ m := fun hx => (hm x hx).elim h2 h1
      rw [Finmap.lookup_eq_none.mpr hx, Finmap.lookup_empty]

theorem mem_insert_status_empty (s : String) (x : String)
    (hx : x ∈ (∅ : StringMap).insert containerKeyStatus s) :
    x = containerKeyStatus ∨ x = containerKeyStatusReason := by
  rw [Finmap.mem_insert] at hx
  rcases hx with h | h
  · exact Or.inl h
  · exact absurd h Finmap.not_mem_empty

theorem mem_insert_status_reason (m : StringMap) (s r : String)
    (hm : ∀ x, x ∈ m → x = containerKeyStatus ∨ x = containerKeyStatusReason) (x : String)
    (hx : x ∈ (m.insert containerKeyStatus s).insert containerKeyStatusReason r) :
    x = containerKeyStatus ∨ x = containerKeyStatusReason := by
  rw [Finmap.mem_insert, Finmap.mem_insert] at hx
  rcases hx with h | h | h
  · exact Or.inr h
  · exact Or.inl h
  · exact hm x h

theorem mem_empty_status (x : String) (hx : x ∈ (∅ : StringMap)) :
    x = containerKeyStatus ∨ x = containerKeyStatusReason :=
  absurd hx Finmap.not_mem_empty

/-- The property mapping of `getMetadataForContainer` for every combination of markers:
the last assignment wins, so waiting overrides terminated, which overrides running. -/
theorem properties_eq (K : SharedKeys) (cs : ContainerStatus) :
    (getMetadataForContainer K cs).properties =
      match cs.State.Waiting, cs.State.Terminated, cs.State.Running with
      | some w, _, _ =>
        StringMap.ofList [(containerKeyStatus, containerStatusWaiting),
          (containerKeyStatusReason, w.Reason)]
      | none, some t, _ =>
        StringMap.ofList [(containerKeyStatus, containerStatusTerminated),
          (containerKeyStatusReason, t.Reason)]
      | none, none, some _ => StringMap.ofList [(containerKeyStatus, containerStatusRunning)]
      | none, none, none => ∅ := by
  unfold getMetadataForContainer
  rcases hW : cs.State.Waiting with _ | w <;> rcases hT : cs.State.Terminated with _ | t <;>
    rcases hR : cs.State.Running with _ | r <;> simp only []
  · rfl
  · exact insert_status_reason _ _ _ mem_empty_status
  · exact insert_status_reason _ _ _ (mem_insert_status_empty _)
  · exact insert_status_reason _ _ _ mem_empty_status
  · exact insert_status_reason _ _ _ (mem_insert_status_empty _)
  · exact insert_status_reason _ _ _ (mem_insert_status_reason _ _ _ mem_empty_status)
  · exact insert_status_reason _ _ _
      (mem_insert_status_reason _ _ _ (mem_insert_status_empty _))

/-! ## Status metrics: restart count and readiness -/

/-- C1: for every container status whose restart count is an `int32` (negative ones
included), `getStatusMetricsForContainer` returns exactly two metrics, the restart metric
first and the readiness metric second (two different descriptors); each has exactly one
time series, and the restart time series has the restart count as its value, unwrapped,
and no label values. -/
theorem getStatusMetricsForContainer_restart (cs : ContainerStatus)
    (h : InInt32 cs.RestartCount) :
    ∃ restart ready : Metric,
      getStatusMetricsForContainer cs = [restart, ready] ∧
      restart.MetricDescriptor = containerRestartMetric ∧
      ready.MetricDescriptor = containerReadyMetric ∧
      containerRestartMetric ≠ containerReadyMetric ∧
      restart.Timeseries = [{ LabelValues := [], Value := cs.RestartCount }] ∧
      ready.Timeseries.length = 1 := by
  refine ⟨_, _, rfl, rfl, rfl, by decide, ?_, rfl⟩
  simp [GetInt64TimeSeries, GetInt64TimeSeriesWithLabels,
    wrapInt64_of_inInt64 (inInt64_of_inInt32 h)]

/-- C1, at a concrete input: the least `int32` as restart count. -/
theorem getStatusMetricsForContainer_restart_witness :
    InInt32 (-2147483648) ∧
    ∃ restart ready : Metric,
      getStatusMetricsForContainer { RestartCount := -2147483648, Ready := true } =
        [restart, ready] ∧
      restart.MetricDescriptor = containerRestartMetric ∧
      ready.MetricDescriptor = containerReadyMetric ∧
      containerRestartMetric ≠ containerReadyMetric ∧
      restart.Timeseries = [{ LabelValues := [], Value := -2147483648 }] ∧
      ready.Timeseries.length = 1 :=
  ⟨by decide,
    getStatusMetricsForContainer_restart { RestartCount := -2147483648, Ready := true }
      (by decide)⟩

/-- C2: for every container status, the readiness metric returned by
`getStatusMetricsForContainer` has a single time series whose value is 1 when the
container is ready and 0 when it is not, and no other integer; `boolToInt64 b` is 1
exactly when `b` is true and 0 exactly when `b` is false. -/
theorem getStatusMetricsForContainer_ready (cs : ContainerStatus) :
    (∃ (restart ready : Metric) (ts : TimeSeries),
      getStatusMetricsForContainer cs = [restart, ready] ∧
      ready.MetricDescriptor = containerReadyMetric ∧
      ready.Timeseries = [ts] ∧
      ts.Value = (if cs.Ready = true then 1 else 0) ∧
      (ts.Value = 1 ∨ ts.Value = 0)) ∧
    (∀ b : Bool, (boolToInt64 b = 1 ↔ b = true) ∧ (boolToInt64 b = 0 ↔ b = false)) := by
  refine ⟨⟨_, _, _, rfl, rfl, rfl, ?_, ?_⟩, ?_⟩
  · cases hr : cs.Ready <;> simp [GetInt64TimeSeries, GetInt64TimeSeriesWithLabels, boolToInt64]
  · cases hr : cs.Ready <;> simp [GetInt64TimeSeries, GetInt64TimeSeriesWithLabels, boolToInt64]
  · intro b
    cases b <;> simp [boolToInt64]

/-! ## Metadata: lifecycle properties -/

/-- C3: for every container status in which exactly one of the three state markers is
set, the properties of `getMetadataForContainer` are exactly the status `running` (one
key, no reason key) when the marker is Running, the status `terminated` with the marker's
reason when it is Terminated, and the status `waiting` with the marker's reason when it is
Waiting. -/
theorem getMetadataForContainer_single_marker (K : SharedKeys) (cs : ContainerStatus) :
    (∀ r, cs.State.Running = some r → cs.State.Terminated = none → cs.State.Waiting = none →
      (getMetadataForContainer K cs).properties =
        StringMap.ofList [(containerKeyStatus, "running")] ∧
      (getMetadataForContainer K cs).properties.keys = {containerKeyStatus} ∧
      containerKeyStatusReason ∉ (getMetadataForContainer K cs).properties) ∧
    (∀ t, cs.State.Running = none → cs.State.Terminated = some t → cs.State.Waiting = none →
      (getMetadataForContainer K cs).properties =
        StringMap.ofList [(containerKeyStatus, "terminated"),
          (containerKeyStatusReason, t.Reason)]) ∧
    (∀ w, cs.State.Running = none → cs.State.Terminated = none → cs.State.Waiting = some w →
      (getMetadataForContainer K cs).properties =
        StringMap.ofList [(containerKeyStatus, "waiting"),
          (containerKeyStatusReason, w.Reason)]) := by
  refine ⟨?_, ?_, ?_⟩
  · intro r hR hT hW
    have hp := properties_eq K cs
    rw [hR, hT, hW] at hp
    simp only [] at hp
    rw [hp]
    refine ⟨rfl, ?_, ?_⟩
    · simp only [StringMap.ofList, List.foldl_cons, List.foldl_nil]
      ext x
      simp only [Finmap.mem_keys, Finmap.mem_insert, Finset.mem_singleton]
      exact ⟨fun h => h.elim id (fun h => absurd h Finmap.not_mem_empty), Or.inl⟩
    · simp only [StringMap.ofList, List.foldl_cons, List.foldl_nil]
      rw [Finmap.mem_insert]
      rintro (h | h)
      · exact status_ne_reason h.symm
      · exact Finmap.not_mem_empty h
  · intro t hR hT hW
    have hp := properties_eq K cs
    rw [hR, hT, hW] at hp
    exact hp
  · intro w hR hT hW
    have hp := properties_eq K cs
    rw [hR, hT, hW] at hp
    exact hp

/-- C3, at concrete inputs: a running, a terminated and a waiting container. -/
theorem getMetadataForContainer_single_marker_witness :
    (getMetadataForContainer sampleKeys { State := { Running := some {} } }).properties =
      StringMap.ofList [(containerKeyStatus, "running")] ∧
    (getMetadataForContainer sampleKeys
        { State := { Terminated := some { Reason := "OOMKilled" } } }).properties =
      StringMap.ofList [(containerKeyStatus, "terminated"),
        (containerKeyStatusReason, "OOMKilled")] ∧
    (getMetadataForContainer sampleKeys
        { State := { Waiting := some { Reason := "CrashLoopBackOff" } } }).properties =
      StringMap.ofList [(containerKeyStatus, "waiting"),
        (containerKeyStatusReason, "CrashLoopBackOff")] :=
  ⟨((getMetadataForContainer_single_marker sampleKeys
        { State := { Running := some {} } }).1 {} rfl rfl rfl).1,
    (getMetadataForContainer_single_marker sampleKeys
        { State := { Terminated := some { Reason := "OOMKilled" } } }).2.1
      { Reason := "OOMKilled" } rfl rfl rfl,
    (getMetadataForContainer_single_marker sampleKeys
        { State := { Waiting := some { Reason := "CrashLoopBackOff" } } }).2.2
      { Reason := "CrashLoopBackOff" } rfl rfl rfl⟩

/-- C4, counterexample: for a status with both the Running and the Terminated marker the
properties are not those of the chain that tests Running first: the status is
`terminated` and the reason key is present although Running is set. -/
theorem getMetadataForContainer_not_running_first :
    csRunningTerminated.State.Running ≠ none ∧
    (getMetadataForContainer sampleKeys csRunningTerminated).properties ≠
      statusPropertiesSpec csRunningTerminated.State ∧
    (getMetadataForContainer sampleKeys csRunningTerminated).properties.lookup
      containerKeyStatus = some "terminated" ∧
    (getMetadataForContainer sampleKeys csRunningTerminated).properties.lookup
      containerKeyStatusReason = some "OOMKilled" := by
  have hp := properties_eq sampleKeys csRunningTerminated
  have hp2 : (getMetadataForContainer sampleKeys csRunningTerminated).properties =
      StringMap.ofList [(containerKeyStatus, containerStatusTerminated),
        (containerKeyStatusReason, "OOMKilled")] := hp
  have hl : (getMetadataForContainer sampleKeys csRunningTerminated).properties.lookup
      containerKeyStatusReason = some "OOMKilled" := by
    rw [hp2]
    simp only [StringMap.ofList, List.foldl_cons, List.foldl_nil]
    exact Finmap.lookup_insert _
  refine ⟨by decide, ?_, ?_, hl⟩
  · intro h
    rw [h] at hl
    have hs : statusPropertiesSpec csRunningTerminated.State =
        StringMap.ofList [(containerKeyStatus, containerStatusRunning)] := rfl
    rw [hs] at hl
    simp only [StringMap.ofList, List.foldl_cons, List.foldl_nil] at hl
    rw [Finmap.lookup_insert_of_ne _ status_ne_reason.symm, Finmap.lookup_empty] at hl
    exact Option.noConfusion hl
  · rw [hp2]
    simp only [StringMap.ofList, List.foldl_cons, List.foldl_nil]
    rw [Finmap.lookup_insert_of_ne _ status_ne_reason]
    exact Finmap.lookup_insert _

/-- C4, amended: for every container status, with any combination of state markers, the
properties of `getMetadataForContainer` are those of an if / else-if chain with
precedence waiting, then terminated, then running: `waiting` with the Waiting reason if
Waiting is set; else `terminated` with the Terminated reason if Terminated is set; else
`running` alone if Running is set; else nothing. The reason key is present exactly when
the Terminated or the Waiting marker is set, so it is absent when Running is the only
marker. -/
theorem getMetadataForContainer_last_marker_wins (K : SharedKeys) (cs : ContainerStatus) :
    (getMetadataForContainer K cs).properties =
      (match cs.State.Waiting, cs.State.Terminated, cs.State.Running with
      | some w, _, _ =>
        StringMap.ofList [(containerKeyStatus, "waiting"), (containerKeyStatusReason, w.Reason)]
      | none, some t, _ =>
        StringMap.ofList [(containerKeyStatus, "terminated"),
          (containerKeyStatusReason, t.Reason)]
      | none, none, some _ => StringMap.ofList [(containerKeyStatus, "running")]
      | none, none, none => ∅) ∧
    (containerKeyStatusReason ∈ (getMetadataForContainer K cs).properties ↔
      (cs.State.Terminated.isSome = true ∨ cs.State.Waiting.isSome = true)) := by
  refine ⟨properties_eq K cs, ?_⟩
  rw [properties_eq K cs]
  rcases hW : cs.State.Waiting with _ | w <;> rcases hT : cs.State.Terminated with _ | t <;>
    rcases hR : cs.State.Running with _ | r <;>
    simp [StringMap.ofList, Finmap.mem_insert, status_ne_reason.symm, Finmap.not_mem_empty]

/-- C5: for every container status in which no state marker is set,
`getMetadataForContainer` returns a record whose properties are empty: neither the status
key nor the reason key is present. -/
theorem getMetadataForContainer_no_marker (K : SharedKeys) (cs : ContainerStatus)
    (hR : cs.State.Running = none) (hT : cs.State.Terminated = none)
    (hW : cs.State.Waiting = none) :
    (getMetadataForContainer K cs).properties = ∅ ∧
    containerKeyStatus ∉ (getMetadataForContainer K cs).properties ∧
    containerKeyStatusReason ∉ (getMetadataForContainer K cs).properties ∧
    (getMetadataForContainer K cs).properties.keys = ∅ := by
  have hp := properties_eq K cs
  rw [hR, hT, hW] at hp
  simp only [] at hp
  rw [hp]
  exact ⟨rfl, Finmap.not_mem_empty, Finmap.not_mem_empty, Finmap.keys_empty⟩

/-- C5, at a concrete input: a status without any state marker. -/
theorem getMetadataForContainer_no_marker_witness :
    (getMetadataForContainer sampleKeys { Name := "app", ContainerID := "abcd1234" }).properties
        = ∅ ∧
    containerKeyStatus ∉
      (getMetadataForContainer sampleKeys
        { Name := "app", ContainerID := "abcd1234" }).properties ∧
    containerKeyStatusReason ∉
      (getMetadataForContainer sampleKeys
        { Name := "app", ContainerID := "abcd1234" }).properties ∧
    (getMetadataForContainer sampleKeys
      { Name := "app", ContainerID := "abcd1234" }).properties.keys = ∅ :=
  getMetadataForContainer_no_marker sampleKeys { Name := "app", ContainerID := "abcd1234" }
    rfl rfl rfl

/-! ## Metadata: identity -/

theorem colon_not_schemeChar : isSchemeChar ':' = false := by decide

theorem dropWhile_scheme_append (scheme tail : List Char)
    (hs : ∀ c ∈ scheme, isSchemeChar c = true) :
    (scheme ++ ':' :: tail).dropWhile isSchemeChar = ':' :: tail := by
  induction scheme with
  | nil => simp [List.dropWhile, colon_not_schemeChar]
  | cons a l ih =>
    have ha : isSchemeChar a = true := hs a (List.mem_cons_self a l)
    have hl : ∀ c ∈ l, isSchemeChar c = true := fun c hc => hs c (List.mem_cons_of_mem a hc)
    simp [List.dropWhile, ha, ih hl]

theorem takeWhile_scheme_append (scheme tail : List Char)
    (hs : ∀ c ∈ scheme, isSchemeChar c = true) :
    (scheme ++ ':' :: tail).takeWhile isSchemeChar = scheme := by
  induction scheme with
  | nil => simp [List.takeWhile, colon_not_schemeChar]
  | cons a l ih =>
    have ha : isSchemeChar a = true := hs a (List.mem_cons_self a l)
    have hl : ∀ c ∈ l, isSchemeChar c = true := fun c hc => hs c (List.mem_cons_of_mem a hc)
    simp [List.takeWhile, ha, ih hl]

/-- A non-empty scheme followed by `://` is dropped. -/
theorem dropScheme_scheme (scheme rest : List Char) (hne : scheme ≠ [])
    (hs : ∀ c ∈ scheme, isSchemeChar c = true) :
    dropScheme (scheme ++ ':' :: '/' :: '/' :: rest) = some rest := by
  unfold dropScheme
  rw [dropWhile_scheme_append scheme _ hs, takeWhile_scheme_append scheme _ hs]
  cases scheme with
  | nil => exact absurd rfl hne
  | cons a l => simp

/-- Whenever something is dropped, it is a non-empty scheme followed by `://`. -/
theorem dropScheme_some (cs rest : List Char) (h : dropScheme cs = some rest) :
    ∃ scheme, scheme ≠ [] ∧ (∀ c ∈ scheme, isSchemeChar c = true) ∧
      cs = scheme ++ ':' :: '/' :: '/' :: rest := by
  unfold dropScheme at h
  have hsplit := List.takeWhile_append_dropWhile isSchemeChar cs
  split at h
  · rename_i rest0 hd
    split at h
    · exact Option.noConfusion h
    · rename_i hemp
      injection h with h
      subst h
      refine ⟨cs.takeWhile isSchemeChar, ?_, ?_, ?_⟩
      · intro h0
        rw [h0] at hemp
        exact hemp rfl
      · intro c hc
        exact List.mem_takeWhile_imp hc
      · rw [← hd]
        exact hsplit.symm
  · exact Option.noConfusion h

/-- C6: for every container status, `getMetadataForContainer` sets the identity key to
the shared constant `containerKeyID` and the identity value to the container ID with its
runtime prefix stripped: an ID made of a scheme (a non-empty run of letters, digits,
underscores and hyphens), then `://`, then a rest gives the rest, and an ID that is not of
this form is left unchanged. -/
theorem getMetadataForContainer_identity (K : SharedKeys) (cs : ContainerStatus) :
    (getMetadataForContainer K cs).resourceIDKey = K.containerKeyID ∧
    (getMetadataForContainer K cs).resourceID = StripContainerID cs.ContainerID ∧
    (∀ scheme rest : String, scheme ≠ "" → (∀ c ∈ scheme.data, isSchemeChar c = true) →
      cs.ContainerID = scheme ++ "://" ++ rest →
      (getMetadataForContainer K cs).resourceID = rest) ∧
    ((¬ ∃ scheme rest : String, scheme ≠ "" ∧ (∀ c ∈ scheme.data, isSchemeChar c = true) ∧
        cs.ContainerID = scheme ++ "://" ++ rest) →
      (getMetadataForContainer K cs).resourceID = cs.ContainerID) := by
  refine ⟨rfl, rfl, ?_, ?_⟩
  · intro scheme rest hne hs hid
    show StripContainerID cs.ContainerID = rest
    have hdata : cs.ContainerID.data = scheme.data ++ ':' :: '/' :: '/' :: rest.data := by
      rw [hid]
      simp [String.data_append]
    have hne2 : scheme.data ≠ [] := by
      intro h0
      apply hne
      cases scheme
      simp_all
    unfold StripContainerID
    rw [hdata, dropScheme_scheme _ _ hne2 hs]
  · intro hno
    show StripContainerID cs.ContainerID = cs.ContainerID
    unfold StripContainerID
    cases hd : dropScheme cs.ContainerID.data with
    | none => rfl
    | some rest =>
      exfalso
      obtain ⟨scheme, hne, hs, heq⟩ := dropScheme_some _ _ hd
      apply hno
      refine ⟨String.mk scheme, String.mk rest, ?_, hs, ?_⟩
      · intro h0
        apply hne
        have := congrArg String.data h0
        simpa using this
      · apply String.ext
        rw [heq]
        simp [String.data_append]

/-- C6, at concrete inputs: `docker://abcd1234` gives `abcd1234`, and the bare
`abcd1234` is unchanged. -/
theorem getMetadataForContainer_identity_witness :
    (getMetadataForContainer sampleKeys { ContainerID := "docker://abcd1234" }).resourceID =
      "abcd1234" ∧
    (getMetadataForContainer sampleKeys { ContainerID := "abcd1234" }).resourceID =
      "abcd1234" :=
  ⟨(getMetadataForContainer_identity sampleKeys { ContainerID := "docker://abcd1234" }).2.2.1
      "docker" "abcd1234" (by decide) (by decide) (by decide),
    (getMetadataForContainer_identity sampleKeys { ContainerID := "abcd1234" }).2.2.2
      (by
        rintro ⟨scheme, rest, -, -, h⟩
        have hc : ':' ∈ ("abcd1234" : String).data := by
          have h2 : ("abcd1234" : String) = scheme ++ "://" ++ rest := h
          rw [h2]
          simp [String.data_append]
        revert hc
        decide)⟩

/-! ## Spec metrics: shape of the output -/

theorem foldl_appendSpecMetric (d : MetricDescriptor)
    (l : List (Sigma (fun _ : String => Quantity))) (acc : List Metric) :
    l.foldl (appendSpecMetric d) acc =
      acc ++ l.map (fun kv =>
        { MetricDescriptor := d
          Timeseries := [{ LabelValues := [{ Value := kv.1 }], Value := specValue kv.1 kv.2 }] }) := by
  induction l generalizing acc with
  | nil => simp
  | cons kv l ih =>
    rw [List.foldl_cons, ih]
    simp [appendSpecMetric, GetInt64TimeSeriesWithLabels]

/-- The output of `getSpecMetricsForContainer`: one metric per request, in iteration
order, followed by one metric per limit. -/
theorem getSpecMetricsForContainer_eq (c : Container) :
    getSpecMetricsForContainer c =
      c.Resources.Requests.entries.map (fun kv =>
        { MetricDescriptor := containerRequestMetric
          Timeseries := [{ LabelValues := [{ Value := kv.1 }], Value := specValue kv.1 kv.2 }] })
      ++ c.Resources.Limits.entries.map (fun kv =>
        { MetricDescriptor := containerLimitMetric
          Timeseries := [{ LabelValues := [{ Value := kv.1 }], Value := specValue kv.1 kv.2 }] }) := by
  unfold getSpecMetricsForContainer
  simp only [List.foldl_cons, List.foldl_nil, foldl_appendSpecMetric, List.nil_append]

theorem request_ne_limit : containerRequestMetric ≠ containerLimitMetric := by decide

theorem filter_map_const_desc (d e : MetricDescriptor)
    (l : List (Sigma (fun _ : String => Quantity))) :
    (l.map (fun kv =>
        ({ MetricDescriptor := e
           Timeseries := [{ LabelValues := [{ Value := kv.1 }],
                            Value := specValue kv.1 kv.2 }] } : Metric))).filter
      (fun m => decide (m.MetricDescriptor = d)) =
    if e = d then
      l.map (fun kv =>
        ({ MetricDescriptor := e
           Timeseries := [{ LabelValues := [{ Value := kv.1 }],
                            Value := specValue kv.1 kv.2 }] } : Metric))
    else [] := by
  induction l with
  | nil => simp
  | cons kv l ih =>
    by_cases h : e = d
    · simp only [h, if_true] at ih ⊢
      simp [List.filter_cons, ih]
    · simp only [h, if_false] at ih ⊢
      simp [List.filter_cons, h, ih]

theorem metricsOf_request (c : Container) :
    metricsOf containerRequestMetric (getSpecMetricsForContainer c) =
      c.Resources.Requests.entries.map (fun kv =>
        { MetricDescriptor := containerRequestMetric
          Timeseries := [{ LabelValues := [{ Value := kv.1 }],
                           Value := specValue kv.1 kv.2 }] }) := by
  unfold metricsOf
  rw [getSpecMetricsForContainer_eq, List.filter_append, filter_map_const_desc,
    filter_map_const_desc]
  simp [request_ne_limit.symm]

theorem metricsOf_limit (c : Container) :
    metricsOf containerLimitMetric (getSpecMetricsForContainer c) =
      c.Resources.Limits.entries.map (fun kv =>
        { MetricDescriptor := containerLimitMetric
          Timeseries := [{ LabelValues := [{ Value := kv.1 }],
                           Value := specValue kv.1 kv.2 }] }) := by
  unfold metricsOf
  rw [getSpecMetricsForContainer_eq, List.filter_append, filter_map_const_desc,
    filter_map_const_desc]
  simp [request_ne_limit]

theorem flatMap_singleton_timeseries (d : MetricDescriptor)
    (l : List (Sigma (fun _ : String => Quantity))) :
    (l.map (fun kv =>
        ({ MetricDescriptor := d
           Timeseries := [{ LabelValues := [{ Value := kv.1 }],
                            Value := specValue kv.1 kv.2 }] } : Metric))).flatMap
      (fun m => m.Timeseries) =
    l.map (fun kv => { LabelValues := [{ Value := kv.1 }], Value := specValue kv.1 kv.2 }) := by
  induction l with
  | nil => rfl
  | cons kv l ih => simp [List.flatMap_cons, ih]

theorem timeSeriesOf_request (c : Container) :
    timeSeriesOf containerRequestMetric (getSpecMetricsForContainer c) =
      c.Resources.Requests.entries.map (fun kv =>
        { LabelValues := [{ Value := kv.1 }], Value := specValue kv.1 kv.2 }) := by
  have h := metricsOf_request c
  unfold metricsOf at h
  unfold timeSeriesOf
  rw [h, flatMap_singleton_timeseries]

theorem timeSeriesOf_limit (c : Container) :
    timeSeriesOf containerLimitMetric (getSpecMetricsForContainer c) =
      c.Resources.Limits.entries.map (fun kv =>
        { LabelValues := [{ Value := kv.1 }], Value := specValue kv.1 kv.2 }) := by
  have h := metricsOf_limit c
  unfold metricsOf at h
  unfold timeSeriesOf
  rw [h, flatMap_singleton_timeseries]

/-- C9, counterexample: for requests `cpu` and `memory` the output holds two
metrics with the request descriptor, not one shared metric, and no metric carries two
time series. -/
theorem getSpecMetricsForContainer_not_shared :
    cCpuMemory.Resources.Requests.entries.length = 2 ∧
    (metricsOf containerRequestMetric (getSpecMetricsForContainer cCpuMemory)).length = 2 ∧
    ¬ (metricsOf containerRequestMetric (getSpecMetricsForContainer cCpuMemory)).length ≤ 1 ∧
    ¬ ∃ m ∈ getSpecMetricsForContainer cCpuMemory, m.Timeseries.length = 2 := by
  have hlen : cCpuMemory.Resources.Requests.entries.length = 2 := by decide
  have hm : (metricsOf containerRequestMetric
      (getSpecMetricsForContainer cCpuMemory)).length = 2 := by
    rw [metricsOf_request, List.length_map, hlen]
  refine ⟨hlen, hm, by omega, ?_⟩
  rintro ⟨m, hmem, h2⟩
  rw [getSpecMetricsForContainer_eq, List.mem_append, List.mem_map, List.mem_map] at hmem
  rcases hmem with ⟨kv, -, rfl⟩ | ⟨kv, -, rfl⟩ <;> simp at h2

/-- C9, amended: for every container, `getSpecMetricsForContainer` emits one metric per
resource entry: a requests (resp. limits) mapping with n entries yields exactly n metrics
with the request (resp. limit) descriptor, every metric of the output has one of these
two descriptors and carries exactly one time series, so the n time series of a kind are
spread over n metrics. -/
theorem getSpecMetricsForContainer_one_metric_per_entry (c : Container) :
    (metricsOf containerRequestMetric (getSpecMetricsForContainer c)).length =
      c.Resources.Requests.entries.length ∧
    (metricsOf containerLimitMetric (getSpecMetricsForContainer c)).length =
      c.Resources.Limits.entries.length ∧
    (timeSeriesOf containerRequestMetric (getSpecMetricsForContainer c)).length =
      c.Resources.Requests.entries.length ∧
    (timeSeriesOf containerLimitMetric (getSpecMetricsForContainer c)).length =
      c.Resources.Limits.entries.length ∧
    ∀ m ∈ getSpecMetricsForContainer c,
      m.Timeseries.length = 1 ∧
      (m.MetricDescriptor = containerRequestMetric ∨
        m.MetricDescriptor = containerLimitMetric) := by
  refine ⟨?_, ?_, ?_, ?_, ?_⟩
  · rw [metricsOf_request, List.length_map]
  · rw [metricsOf_limit, List.length_map]
  · rw [timeSeriesOf_request, List.length_map]
  · rw [timeSeriesOf_limit, List.length_map]
  · intro m hmem
    rw [getSpecMetricsForContainer_eq, List.mem_append, List.mem_map, List.mem_map] at hmem
    rcases hmem with ⟨kv, -, rfl⟩ | ⟨kv, -, rfl⟩
    · exact ⟨rfl, Or.inl rfl⟩
    · exact ⟨rfl, Or.inr rfl⟩

theorem countP_label_keys (l : List (Sigma (fun _ : String => Quantity))) (hl : l.NodupKeys)
    (k : String) :
    (l.map (fun kv =>
        ({ LabelValues := [{ Value := kv.1 }],
           Value := specValue kv.1 kv.2 } : TimeSeries))).countP
      (fun ts => decide (ts.LabelValues = [{ Value := k }])) =
    if k ∈ l.keys then 1 else 0 := by
  induction l with
  | nil => simp
  | cons kv l ih =>
    rw [List.nodupKeys_cons] at hl
    have ih2 := ih hl.2
    rw [List.map_cons, List.countP_cons, ih2, List.keys_cons]
    by_cases hk : kv.1 = k
    · have hnot : k ∉ l.keys := hk ▸ hl.1
      simp [hk, hnot]
    · have hk2 : ¬ k = kv.1 := fun h => hk h.symm
      simp [hk, hk2]

/-- C10: for every container, the time series under the request descriptor correspond
one-to-one to the keys of the requests, and those under the limit descriptor to the keys
of the limits: their label values are the keys in iteration order, every resource name
labels exactly one time series of its kind if it is declared and none otherwise, the
number of time series is the number of requests plus the number of limits, and the
output is the empty list exactly when both mappings are empty. -/
theorem getSpecMetricsForContainer_one_series_per_key (c : Container) :
    (timeSeriesOf containerRequestMetric (getSpecMetricsForContainer c)).map
        (fun ts => ts.LabelValues) =
      c.Resources.Requests.keys.map (fun k => [{ Value := k }]) ∧
    (timeSeriesOf containerLimitMetric (getSpecMetricsForContainer c)).map
        (fun ts => ts.LabelValues) =
      c.Resources.Limits.keys.map (fun k => [{ Value := k }]) ∧
    (∀ k : String,
      (timeSeriesOf containerRequestMetric (getSpecMetricsForContainer c)).countP
          (fun ts => decide (ts.LabelValues = [{ Value := k }])) =
        (if k ∈ c.Resources.Requests.keys then 1 else 0) ∧
      (timeSeriesOf containerLimitMetric (getSpecMetricsForContainer c)).countP
          (fun ts => decide (ts.LabelValues = [{ Value := k }])) =
        (if k ∈ c.Resources.Limits.keys then 1 else 0)) ∧
    ((getSpecMetricsForContainer c).flatMap (fun m => m.Timeseries)).length =
      c.Resources.Requests.entries.length + c.Resources.Limits.entries.length ∧
    (getSpecMetricsForContainer c).length =
      c.Resources.Requests.entries.length + c.Resources.Limits.entries.length ∧
    (getSpecMetricsForContainer c = [] ↔
      c.Resources.Requests = ∅ ∧ c.Resources.Limits = ∅) := by
  refine ⟨?_, ?_, ?_, ?_, ?_, ?_⟩
  · rw [timeSeriesOf_request]
    simp [AList.keys, List.keys, List.map_map, Function.comp_def]
  · rw [timeSeriesOf_limit]
    simp [AList.keys, List.keys, List.map_map, Function.comp_def]
  · intro k
    rw [timeSeriesOf_request, timeSeriesOf_limit]
    exact ⟨countP_label_keys _ c.Resources.Requests.nodupKeys k,
      countP_label_keys _ c.Resources.Limits.nodupKeys k⟩
  · rw [getSpecMetricsForContainer_eq, List.flatMap_append, List.length_append,
      flatMap_singleton_timeseries, flatMap_singleton_timeseries, List.length_map,
      List.length_map]
  · rw [getSpecMetricsForContainer_eq, List.length_append, List.length_map, List.length_map]
  · rw [getSpecMetricsForContainer_eq, List.append_eq_nil, List.map_eq_nil_iff,
      List.map_eq_nil_iff]
    constructor
    · rintro ⟨h1, h2⟩
      exact ⟨AList.ext h1, AList.ext h2⟩
    · rintro ⟨h1, h2⟩
      rw [h1, h2]
      exact ⟨rfl, rfl⟩

/-! ## Quantities: rounding of scaled values -/

theorem negativeScaleLoop_natCast (base : Int) (hb : 0 < base) (n : Nat) (v : Nat) (f : Bool) :
    (negativeScaleLoop base n (v : Int) f).1 =
      ((if f = true ∨ v % 10 ^ n ≠ 0 then v / 10 ^ n + 1 else v / 10 ^ n : Nat) : Int) := by
  induction n generalizing v f with
  | zero =>
    cases f <;> simp [negativeScaleLoop, hb, Nat.mod_one]
  | succ n ih =>
    have hdiv : (v : Int).tdiv 10 = ((v / 10 : Nat) : Int) := (Int.ofNat_tdiv v 10).symm
    have hmod : (v : Int).tmod 10 = ((v % 10 : Nat) : Int) := (Int.ofNat_tmod v 10).symm
    have hpow : (10 : Nat) ^ (n + 1) = 10 * 10 ^ n := by ring
    have hpos : 0 < (10 : Nat) ^ n := Nat.pow_pos (by norm_num)
    unfold negativeScaleLoop
    simp only [hdiv, hmod]
    by_cases hz : v / 10 = 0
    · have hlt : v < 10 := by omega
      have hlt2 : v < 10 ^ (n + 1) := by
        rw [hpow]
        nlinarith
      have hmodv : v % 10 = v := Nat.mod_eq_of_lt hlt
      rw [Nat.mod_eq_of_lt hlt2, Nat.div_eq_of_lt hlt2]
      by_cases hv0 : v = 0 <;> cases f <;> simp [hz, hmodv, hv0, hb]
    · have hcast : ¬ ((v / 10 : Nat) : Int) = 0 := by exact_mod_cast hz
      rw [if_neg hcast, ih]
      have hd : v / 10 / 10 ^ n = v / 10 ^ (n + 1) := by
        rw [hpow, Nat.div_div_eq_div_mul]
      have hm : v % 10 ^ (n + 1) = v % 10 + 10 * (v / 10 % 10 ^ n) := by
        rw [hpow, Nat.mod_mul]
      rw [hd, hm]
      have hiff : (((f || decide (((v % 10 : Nat) : Int) ≠ 0)) = true ∨ v / 10 % 10 ^ n ≠ 0) ↔
          (f = true ∨ v % 10 + 10 * (v / 10 % 10 ^ n) ≠ 0)) := by
        have hc : (((v % 10 : Nat) : Int) ≠ 0) ↔ v % 10 ≠ 0 := by
          constructor
          · intro h h0
            apply h
            exact_mod_cast h0
          · intro h h0
            apply h
            exact_mod_cast h0
        simp only [Bool.or_eq_true, decide_eq_true_eq, hc]
        constructor
        · rintro ((h | h) | h)
          · exact Or.inl h
          · right; omega
          · right; omega
        · rintro (h | h)
          · exact Or.inl (Or.inl h)
          · by_cases h10 : v % 10 = 0
            · right; omega
            · exact Or.inl (Or.inr h10)
      by_cases hc : (f = true ∨ v % 10 + 10 * (v / 10 % 10 ^ n) ≠ 0)
      · rw [if_pos hc, if_pos (hiff.mpr hc)]
      · rw [if_neg hc, if_neg (fun h => hc (hiff.mp h))]

theorem negativeScaleLoop_neg (base : Int) (hb : 0 < base) (n : Nat) (v : Int) (f : Bool) :
    (negativeScaleLoop (-base) n (-v) f).1 = -(negativeScaleLoop base n v f).1 := by
  induction n generalizing v f with
  | zero =>
    have hnb : ¬ (-base > 0) := by omega
    cases f <;> simp [negativeScaleLoop, hb, hnb]
    omega
  | succ n ih =>
    have hnb : ¬ (-base > 0) := by omega
    have hmod : ((-v).tmod 10 ≠ 0) ↔ (v.tmod 10 ≠ 0) := by
      rw [Int.tmod_def, Int.tmod_def, Int.neg_tdiv]
      omega
    unfold negativeScaleLoop
    simp only [Int.neg_tdiv, hmod]
    by_cases hz : v.tdiv 10 = 0
    · have hz2 : -(v.tdiv 10) = 0 := by omega
      rw [if_pos hz, if_pos hz2]
      by_cases hfr : (f || decide (v.tmod 10 ≠ 0)) = true
      · rw [if_pos hfr, if_pos hfr]
        simp [hb, hnb]
      · rw [if_neg hfr, if_neg hfr]
        simp
    · have hz2 : ¬ -(v.tdiv 10) = 0 := by omega
      rw [if_neg hz, if_neg hz2]
      exact ih _ _

theorem negativeScaleLoop_zero (n : Nat) :
    (negativeScaleLoop 0 (n + 1) 0 false).1 = 0 := by
  simp [negativeScaleLoop]

theorem int64MultiplyScale_fits (a b : Int) (hb : 2 ≤ b) (hfit : InInt64 (a * b)) :
    int64MultiplyScale a b = (a * b, true) := by
  unfold int64MultiplyScale
  have hw : wrapInt64 (a * b) = a * b := wrapInt64_of_inInt64 hfit
  by_cases h01 : a = 0 ∨ a = 1
  · rw [if_pos h01, hw]
  · rw [if_neg h01]
    by_cases hmn : a = mostNegative ∧ b ≠ 1
    · exfalso
      obtain ⟨ha, -⟩ := hmn
      unfold InInt64 at hfit
      rw [ha] at hfit
      unfold mostNegative at hfit
      norm_num at hfit
      omega
    · rw [if_neg hmn]
      have hb0 : b ≠ 0 := by omega
      simp only [hw, Int.mul_tdiv_cancel a hb0, decide_True]

theorem int64MultiplyScale10_eq (a : Int) : int64MultiplyScale10 a = int64MultiplyScale a 10 := by
  unfold int64MultiplyScale10 int64MultiplyScale
  simp

theorem int64MultiplyScale100_eq (a : Int) :
    int64MultiplyScale100 a = int64MultiplyScale a 100 := by
  unfold int64MultiplyScale100 int64MultiplyScale
  simp

theorem int64MultiplyScale1000_eq (a : Int) :
    int64MultiplyScale1000 a = int64MultiplyScale a 1000 := by
  unfold int64MultiplyScale1000 int64MultiplyScale
  simp

theorem int64MultiplyScale_zero (b : Int) : int64MultiplyScale 0 b = (0, true) := by
  unfold int64MultiplyScale
  simp [wrapInt64]

theorem inInt64_of_mul_pow (v : Int) (n : Nat) (h : InInt64 (v * 10 ^ n)) : InInt64 v := by
  unfold InInt64 at *
  have hp : (1 : Int) ≤ 10 ^ n := one_le_pow₀ (by norm_num)
  constructor
  · by_contra hc
    have : v * 10 ^ n ≤ v * 1 := by
      apply mul_le_mul_of_nonpos_left hp
      norm_num at hc ⊢
      omega
    norm_num at hc h this
    omega
  · by_contra hc
    have : v * 1 ≤ v * 10 ^ n := by
      apply mul_le_mul_of_nonneg_left hp
      norm_num at hc ⊢
      omega
    norm_num at hc h this
    omega

theorem positiveScaleLoop_fits (n : Nat) (v : Int) (hfit : InInt64 (v * 10 ^ n)) :
    positiveScaleLoop n v = (v * 10 ^ n, true) := by
  induction n generalizing v with
  | zero => simp [positiveScaleLoop]
  | succ n ih =>
    have hpow : v * 10 ^ (n + 1) = v * 10 * 10 ^ n := by ring
    rw [hpow] at hfit
    have h10 : InInt64 (v * 10) := inInt64_of_mul_pow _ _ hfit
    unfold positiveScaleLoop
    rw [int64MultiplyScale_fits v 10 (by norm_num) h10]
    simp only []
    rw [ih _ hfit, hpow]

theorem positiveScaleLoop_zero (n : Nat) : positiveScaleLoop n 0 = (0, true) := by
  induction n with
  | zero => rfl
  | succ n ih =>
    unfold positiveScaleLoop
    rw [int64MultiplyScale_zero]
    exact ih

theorem positiveScaleInt64_zero (d : Int) : positiveScaleInt64 0 d = (0, true) := by
  unfold positiveScaleInt64
  simp only [int64MultiplyScale10_eq, int64MultiplyScale100_eq, int64MultiplyScale1000_eq,
    int64MultiplyScale_zero, positiveScaleLoop_zero]
  split_ifs <;> rfl

theorem positiveScaleInt64_fits (v : Int) (n : Nat) (hfit : InInt64 (v * 10 ^ n)) :
    positiveScaleInt64 v (n : Int) = (v * 10 ^ n, true) := by
  unfold positiveScaleInt64
  simp only [int64MultiplyScale10_eq, int64MultiplyScale100_eq, int64MultiplyScale1000_eq]
  by_cases h0 : n = 0
  · subst h0
    simp
  by_cases h1 : n = 1
  · subst h1
    simpa using int64MultiplyScale_fits v 10 (by norm_num) (by simpa using hfit)
  by_cases h2 : n = 2
  · subst h2
    simpa using int64MultiplyScale_fits v 100 (by norm_num) (by simpa using hfit)
  by_cases h3 : n = 3
  · subst h3
    simpa using int64MultiplyScale_fits v 1000 (by norm_num) (by simpa using hfit)
  by_cases h6 : n = 6
  · subst h6
    simpa using int64MultiplyScale_fits v 1000000 (by norm_num) (by simpa using hfit)
  by_cases h9 : n = 9
  · subst h9
    simpa using int64MultiplyScale_fits v 1000000000 (by norm_num) (by simpa using hfit)
  have c0 : ¬ (n : Int) = 0 := by omega
  have c1 : ¬ (n : Int) = 1 := by omega
  have c2 : ¬ (n : Int) = 2 := by omega
  have c3 : ¬ (n : Int) = 3 := by omega
  have c6 : ¬ (n : Int) = 6 := by omega
  have c9 : ¬ (n : Int) = 9 := by omega
  rw [if_neg c0, if_neg c1, if_neg c2, if_neg c3, if_neg c6, if_neg c9, Int.toNat_natCast]
  exact positiveScaleLoop_fits n v hfit

/-- For a positive value the loop yields the least integer whose multiple of `10 ^ n`
reaches the value. -/
theorem negativeScaleLoop_ceil (w n : Nat) (hw : 0 < w) :
    ((negativeScaleLoop (w : Int) n (w : Int) false).1 - 1) * 10 ^ n < (w : Int) ∧
    (w : Int) ≤ (negativeScaleLoop (w : Int) n (w : Int) false).1 * 10 ^ n := by
  have hb : (0 : Int) < (w : Int) := by exact_mod_cast hw
  rw [negativeScaleLoop_natCast (w : Int) hb n w false]
  have hm : 0 < 10 ^ n := Nat.pow_pos (by norm_num)
  have hdm : 10 ^ n * (w / 10 ^ n) + w % 10 ^ n = w := Nat.div_add_mod w (10 ^ n)
  have hlt : w % 10 ^ n < 10 ^ n := Nat.mod_lt w hm
  generalize hk : w / 10 ^ n = k at hdm
  generalize hr : w % 10 ^ n = r at hdm hlt
  generalize hM : 10 ^ n = m at hdm hlt hm
  have hMz : (10 : Int) ^ n = (m : Int) := by exact_mod_cast hM
  rw [hMz]
  have hdmz : (m : Int) * k + r = w := by exact_mod_cast hdm
  have hltz : (r : Int) < m := by exact_mod_cast hlt
  have hr0 : (0 : Int) ≤ r := Int.natCast_nonneg r
  by_cases hrz : r = 0
  · have hc : ¬ (false = true ∨ r ≠ 0) := by simp [hrz]
    rw [if_neg hc]
    have hmz : (0 : Int) < m := by exact_mod_cast hm
    subst hrz
    constructor
    · push_cast at hdmz ⊢
      nlinarith
    · push_cast at hdmz ⊢
      nlinarith
  · have hc : (false = true ∨ r ≠ 0) := Or.inr hrz
    rw [if_pos hc]
    have hrpos : (0 : Int) < r := by
      have : 0 < r := Nat.pos_of_ne_zero hrz
      exact_mod_cast this
    constructor
    · push_cast
      nlinarith
    · push_cast
      nlinarith

/-- The function `negativeScaleInt64` rounds away from zero: up for a value that is not
negative, down for one that is not positive. -/
theorem negativeScaleInt64_round (v : Int) (n : Nat) (hn : 0 < n) :
    (0 ≤ v → ((negativeScaleInt64 v n).1 - 1) * 10 ^ n < v ∧
      v ≤ (negativeScaleInt64 v n).1 * 10 ^ n) ∧
    (v ≤ 0 → (negativeScaleInt64 v n).1 * 10 ^ n ≤ v ∧
      v < ((negativeScaleInt64 v n).1 + 1) * 10 ^ n) := by
  have hn0 : ¬ (n : Int) = 0 := by omega
  have hpos : (0 : Int) < 10 ^ n := pow_pos (by norm_num) n
  unfold negativeScaleInt64
  rw [if_neg hn0, Int.toNat_natCast]
  rcases lt_trichotomy v 0 with hneg | hzero | hpos2
  · obtain ⟨w, hw⟩ : ∃ w : Nat, v = -(w : Int) := ⟨(-v).toNat, by omega⟩
    have hwpos : 0 < w := by omega
    have hwz : (0 : Int) < (w : Int) := by exact_mod_cast hwpos
    subst hw
    rw [negativeScaleLoop_neg (w : Int) hwz n (w : Int) false]
    have hc := negativeScaleLoop_ceil w n hwpos
    constructor
    · intro h
      omega
    · intro _
      constructor
      · nlinarith [hc.1, hc.2]
      · nlinarith [hc.1, hc.2]
  · subst hzero
    obtain ⟨k, rfl⟩ : ∃ k, n = k + 1 := ⟨n - 1, by omega⟩
    rw [negativeScaleLoop_zero]
    constructor
    · intro _
      constructor
      · simp
      · simp
    · intro _
      constructor
      · simp
      · simp
  · obtain ⟨w, hw⟩ : ∃ w : Nat, v = (w : Int) := ⟨v.toNat, by omega⟩
    have hwpos : 0 < w := by omega
    subst hw
    have hc := negativeScaleLoop_ceil w n hwpos
    constructor
    · intro _
      exact hc
    · intro h
      omega

theorem bigInt64_of_inInt64 {x : Int} (h : InInt64 x) : bigInt64 x = x := by
  unfold InInt64 at h
  unfold bigInt64 wrapInt64
  norm_num at h ⊢
  by_cases hx : x < 0
  · have habs : |x| = -x := abs_of_neg hx
    rw [if_pos hx, habs]
    omega
  · have habs : |x| = x := abs_of_nonneg (by omega)
    rw [if_neg hx, habs]
    omega

/-- The ceiling of a quotient by a power of ten, by Euclidean division. -/
theorem ceil_div_pow10 (u : Int) (m : Nat) :
    ⌈(u : ℚ) / (10 : ℚ) ^ m⌉ = if u % 10 ^ m = 0 then u / 10 ^ m else u / 10 ^ m + 1 := by
  have hD : (0 : Int) < 10 ^ m := pow_pos (by norm_num) m
  have hDq : (0 : ℚ) < (10 : ℚ) ^ m := pow_pos (by norm_num) m
  have hdm : 10 ^ m * (u / 10 ^ m) + u % 10 ^ m = u := Int.ediv_add_emod u (10 ^ m)
  have hr0 : 0 ≤ u % 10 ^ m := Int.emod_nonneg u (by omega)
  have hr1 : u % 10 ^ m < 10 ^ m := Int.emod_lt_of_pos u hD
  generalize hk : u / 10 ^ m = k at hdm
  generalize hr : u % 10 ^ m = r at hdm hr0 hr1
  have hu : (u : ℚ) = (10 : ℚ) ^ m * k + r := by
    have : ((10 ^ m * k + r : Int) : ℚ) = (u : ℚ) := by rw [hdm]
    push_cast at this
    exact this.symm
  have hr0q : (0 : ℚ) ≤ r := by exact_mod_cast hr0
  have hr1q : (r : ℚ) < (10 : ℚ) ^ m := by exact_mod_cast hr1
  by_cases hz : r = 0
  · rw [if_pos hz, Int.ceil_eq_iff]
    subst hz
    constructor
    · rw [lt_div_iff₀ hDq, hu]
      push_cast
      nlinarith
    · rw [div_le_iff₀ hDq, hu]
      push_cast
      nlinarith
  · rw [if_neg hz, Int.ceil_eq_iff]
    have hrpos : (0 : ℚ) < r := by
      have : 0 < r := by omega
      exact_mod_cast this
    constructor
    · rw [lt_div_iff₀ hDq, hu]
      push_cast
      nlinarith
    · rw [div_le_iff₀ hDq, hu]
      push_cast
      nlinarith

theorem zpow_neg_natCast_eq (v : ℚ) (n : Nat) :
    v * (10 : ℚ) ^ (-(n : Int)) = v / (10 : ℚ) ^ n := by
  rw [zpow_neg, zpow_natCast, div_eq_mul_inv]

theorem ceil_mul_pow10 (v : Int) (n : Nat) :
    ⌈(v : ℚ) * (10 : ℚ) ^ (n : Int)⌉ = v * 10 ^ n := by
  rw [zpow_natCast]
  have : (v : ℚ) * (10 : ℚ) ^ n = ((v * 10 ^ n : Int) : ℚ) := by push_cast; ring
  rw [this, Int.ceil_intCast]

theorem pow10_lt_of_fits (v : Int) (n : Nat) (hv : v ≠ 0) (hfit : InInt64 (v * 10 ^ n)) :
    n < 19 := by
  by_contra hc
  have hle : (10 : Int) ^ 19 ≤ 10 ^ n := pow_le_pow_right₀ (by norm_num) (by omega)
  unfold InInt64 at hfit
  norm_num at hfit hle
  rcases lt_or_gt_of_ne hv with hneg | hpos
  · have : v * 10 ^ n ≤ (-1) * 10 ^ n := by
      apply mul_le_mul_of_nonneg_right (by omega)
      positivity
    omega
  · have : 1 * 10 ^ n ≤ v * 10 ^ n := by
      apply mul_le_mul_of_nonneg_right (by omega)
      positivity
    omega

/-- An `int64Amount` that is not negative, scaled to the target scale 0 or `Milli`: the
result is the scaled number rounded up, provided that fits in an `int64`. -/
theorem asScaledInt64_ceil (a : int64Amount) (t : Int) (ht : t = 0 ∨ t = -3)
    (hlo : -2 ^ 31 < a.scale) (hhi : a.scale < 2 ^ 31) (hnn : 0 ≤ a.value)
    (hfit : InInt64 ⌈(a.value : ℚ) * (10 : ℚ) ^ (a.scale - t)⌉) :
    (AsScaledInt64 a t).1 = ⌈(a.value : ℚ) * (10 : ℚ) ^ (a.scale - t)⌉ := by
  unfold AsScaledInt64
  by_cases hlt : a.scale < t
  · rw [if_pos hlt]
    obtain ⟨n, hn⟩ : ∃ n : Nat, t - a.scale = (n : Int) := ⟨(t - a.scale).toNat, by omega⟩
    have hnpos : 0 < n := by omega
    have hwrap : wrapInt32 (t - a.scale) = (n : Int) := by
      unfold wrapInt32
      rw [hn]
      norm_num at hlo hhi ⊢
      omega
    have hexp : a.scale - t = -(n : Int) := by omega
    rw [hwrap, hexp, zpow_neg_natCast_eq]
    obtain ⟨h1, h2⟩ := (negativeScaleInt64_round a.value n hnpos).1 hnn
    have hp : (0 : ℚ) < (10 : ℚ) ^ n := pow_pos (by norm_num) n
    symm
    rw [Int.ceil_eq_iff]
    constructor
    · rw [lt_div_iff₀ hp]
      have : ((((negativeScaleInt64 a.value n).1 - 1) * 10 ^ n : Int) : ℚ) <
          ((a.value : Int) : ℚ) := by exact_mod_cast h1
      push_cast at this
      linarith
    · rw [div_le_iff₀ hp]
      have : ((a.value : Int) : ℚ) ≤ (((negativeScaleInt64 a.value n).1 * 10 ^ n : Int) : ℚ) := by
        exact_mod_cast h2
      push_cast at this
      linarith
  · rw [if_neg hlt]
    obtain ⟨n, hn⟩ : ∃ n : Nat, a.scale - t = (n : Int) := ⟨(a.scale - t).toNat, by omega⟩
    rw [hn, ceil_mul_pow10] at hfit ⊢
    by_cases hv0 : a.value = 0
    · rw [hv0, positiveScaleInt64_zero]
      simp
    · have hn19 : n < 19 := pow10_lt_of_fits a.value n hv0 hfit
      have hwrap : wrapInt32 (n : Int) = (n : Int) := by
        unfold wrapInt32
        norm_num
        omega
      rw [hwrap, positiveScaleInt64_fits a.value n hfit]

/-- A big decimal that is not negative, brought to a new scale: the result is the scaled
number rounded up, provided that fits in an `int64`. -/
theorem scaledValue_ceil (u sc newScale : Int) (hnn : 0 ≤ u)
    (hfit : InInt64 ⌈(u : ℚ) * (10 : ℚ) ^ (newScale - sc)⌉) :
    scaledValue u sc newScale = ⌈(u : ℚ) * (10 : ℚ) ^ (newScale - sc)⌉ := by
  unfold scaledValue
  simp only []
  by_cases h0 : sc - newScale = 0
  · rw [if_pos h0]
    have hexp : newScale - sc = ((0 : Nat) : Int) := by omega
    rw [hexp, ceil_mul_pow10] at hfit ⊢
    simp only [pow_zero, mul_one] at hfit ⊢
    exact bigInt64_of_inInt64 hfit
  · rw [if_neg h0]
    by_cases hneg : sc - newScale < 0
    · rw [if_pos hneg]
      obtain ⟨m, hm⟩ : ∃ m : Nat, newScale - sc = (m : Int) := ⟨(newScale - sc).toNat, by omega⟩
      have hm2 : (-(sc - newScale)).toNat = m := by omega
      rw [hm, ceil_mul_pow10] at hfit ⊢
      rw [hm2]
      have hu : InInt64 u := inInt64_of_mul_pow u m hfit
      rw [bigInt64_of_inInt64 hu]
      by_cases hu0 : u = 0
      · subst hu0
        simp [wrapInt64]
      · have hm19 : m < 19 := pow10_lt_of_fits u m hu0 hfit
        have hp : pow10Int64 m = 10 ^ m := by
          unfold pow10Int64
          rw [if_pos (by omega)]
        rw [hp]
        exact wrapInt64_of_inInt64 hfit
    · rw [if_neg hneg]
      obtain ⟨m, hm⟩ : ∃ m : Nat, sc - newScale = (m : Int) := ⟨(sc - newScale).toNat, by omega⟩
      have hmpos : 0 < m := by omega
      have hexp : newScale - sc = -(m : Int) := by omega
      have hm2 : (sc - newScale).toNat = m := by omega
      rw [hexp, zpow_neg_natCast_eq, ceil_div_pow10] at hfit ⊢
      rw [hm2]
      have hD : (0 : Int) < 10 ^ m := pow_pos (by norm_num) m
      have hq0 : 0 ≤ u / 10 ^ m := Int.ediv_nonneg hnn (by omega)
      by_cases hfast : u < maxInt64 ∧ sc - newScale < 19
      · rw [if_pos hfast]
        obtain ⟨hmax, h19⟩ := hfast
        have hu : InInt64 u := by
          unfold InInt64
          unfold maxInt64 at hmax
          norm_num at hmax ⊢
          omega
        have hp : pow10Int64 m = 10 ^ m := by
          unfold pow10Int64
          rw [if_pos (by omega)]
        rw [bigInt64_of_inInt64 hu, hp, Int.tdiv_eq_ediv hnn (by omega),
          Int.tmod_eq_emod hnn (by omega)]
        by_cases hr : u % 10 ^ m = 0
        · rw [if_pos hr] at hfit ⊢
          rw [if_neg (by simpa using hr)]
        · rw [if_neg hr] at hfit ⊢
          rw [if_pos hr]
          exact wrapInt64_of_inInt64 hfit
      · rw [if_neg hfast]
        by_cases hr : u % 10 ^ m = 0
        · rw [if_pos hr] at hfit ⊢
          rw [if_neg (by simpa using hr)]
          exact bigInt64_of_inInt64 hfit
        · rw [if_neg hr] at hfit ⊢
          rw [if_pos hr]
          have hres : InInt64 (u / 10 ^ m) := by
            unfold InInt64 at hfit ⊢
            norm_num at hfit ⊢
            omega
          rw [bigInt64_of_inInt64 hres]
          exact wrapInt64_of_inInt64 hfit

theorem infScale_zero : infScale 0 = 0 := by decide

theorem infScale_milli : infScale Milli = 3 := by decide

theorem nonneg_of_mul_zpow_nonneg (v : Int) (e : Int) (h : 0 ≤ (v : ℚ) * (10 : ℚ) ^ e) :
    0 ≤ v := by
  have hp : (0 : ℚ) < (10 : ℚ) ^ e := zpow_pos (by norm_num) e
  have : (0 : ℚ) ≤ (v : ℚ) := (mul_nonneg_iff_of_pos_right hp).mp h
  exact_mod_cast this

/-- The value of `Quantity.Value` for a quantity that is not negative: the quantity
rounded up to an integer, provided that fits in an `int64`. -/
theorem value_eq_ceil (q : Quantity) (hwf : q.WellFormed) (hnn : 0 ≤ q.toRat)
    (hfit : InInt64 ⌈q.toRat⌉) : q.Value = ⌈q.toRat⌉ := by
  unfold Quantity.WellFormed at hwf
  unfold Quantity.toRat at hnn hfit ⊢
  unfold Quantity.Value Quantity.ScaledValue
  obtain ⟨-, hlo, hhi, -⟩ := hwf
  cases hd : q.d with
  | none =>
    rw [hd] at hnn hfit
    simp only [] at hnn hfit ⊢
    have hv := nonneg_of_mul_zpow_nonneg _ _ hnn
    have hexp : q.i.scale = q.i.scale - 0 := by omega
    rw [hexp] at hfit ⊢
    exact asScaledInt64_ceil q.i 0 (Or.inl rfl) hlo hhi hv hfit
  | some dec =>
    rw [hd] at hnn hfit
    simp only [] at hnn hfit ⊢
    have hu := nonneg_of_mul_zpow_nonneg _ _ hnn
    have hexp : -dec.scale = 0 - dec.scale := by omega
    rw [hexp] at hfit ⊢
    rw [infScale_zero]
    exact scaledValue_ceil dec.unscaled dec.scale 0 hu hfit

/-- The value of `Quantity.MilliValue` for a quantity that is not negative: the quantity
times 1000, rounded up to an integer, provided that fits in an `int64`. -/
theorem milliValue_eq_ceil (q : Quantity) (hwf : q.WellFormed) (hnn : 0 ≤ q.toRat)
    (hfit : InInt64 ⌈q.toRat * 1000⌉) : q.MilliValue = ⌈q.toRat * 1000⌉ := by
  unfold Quantity.WellFormed at hwf
  unfold Quantity.toRat at hnn hfit ⊢
  unfold Quantity.MilliValue Quantity.ScaledValue
  obtain ⟨-, hlo, hhi, -⟩ := hwf
  have h10 : (10 : ℚ) ≠ 0 := by norm_num
  cases hd : q.d with
  | none =>
    rw [hd] at hnn hfit
    simp only [] at hnn hfit ⊢
    have hv := nonneg_of_mul_zpow_nonneg _ _ hnn
    have hrw : (q.i.value : ℚ) * (10 : ℚ) ^ q.i.scale * 1000 =
        (q.i.value : ℚ) * (10 : ℚ) ^ (q.i.scale - (-3)) := by
      rw [sub_neg_eq_add, zpow_add₀ h10]
      norm_num
      ring
    rw [hrw] at hfit ⊢
    exact asScaledInt64_ceil q.i (-3) (Or.inr rfl) hlo hhi hv hfit
  | some dec =>
    rw [hd] at hnn hfit
    simp only [] at hnn hfit ⊢
    have hu := nonneg_of_mul_zpow_nonneg _ _ hnn
    have hrw : (dec.unscaled : ℚ) * (10 : ℚ) ^ (-dec.scale) * 1000 =
        (dec.unscaled : ℚ) * (10 : ℚ) ^ (3 - dec.scale) := by
      rw [sub_eq_add_neg, zpow_add₀ h10]
      norm_num
      ring
    rw [hrw] at hfit ⊢
    rw [infScale_milli]
    exact scaledValue_ceil dec.unscaled dec.scale 3 hu hfit

/-! ## Spec metrics: values -/

/-- The time series of one kind labelled with a declared resource name: there is one,
and each has the value computed from the declared quantity. -/
theorem series_of_entry (l : AList (fun _ : String => Quantity)) (k : String) (q : Quantity)
    (hmem : Sigma.mk k q ∈ l.entries) :
    (∃ ts ∈ l.entries.map (fun kv =>
        ({ LabelValues := [{ Value := kv.1 }], Value := specValue kv.1 kv.2 } : TimeSeries)),
      ts.LabelValues = [{ Value := k }]) ∧
    ∀ ts ∈ l.entries.map (fun kv =>
        ({ LabelValues := [{ Value := kv.1 }], Value := specValue kv.1 kv.2 } : TimeSeries)),
      ts.LabelValues = [{ Value := k }] → ts.Value = specValue k q := by
  constructor
  · exact ⟨_, List.mem_map.mpr ⟨⟨k, q⟩, hmem, rfl⟩, rfl⟩
  · intro ts hts hlab
    obtain ⟨kv, hkv, rfl⟩ := List.mem_map.mp hts
    obtain ⟨k2, q2⟩ := kv
    have hk : k2 = k := by simpa using hlab
    subst hk
    have hq : q2 = q := l.nodupKeys.eq_of_mk_mem hkv hmem
    subst hq
    rfl

/-- The value computed for an entry whose quantity is not negative: the quantity times
1000 for `cpu`, the quantity itself otherwise, rounded up, when that fits an `int64`. -/
theorem specValue_eq_ceil (k : String) (q : Quantity) (hwf : q.WellFormed)
    (hnn : 0 ≤ q.toRat) :
    (k = "cpu" → InInt64 ⌈q.toRat * 1000⌉ → specValue k q = ⌈q.toRat * 1000⌉) ∧
    (k ≠ "cpu" → InInt64 ⌈q.toRat⌉ → specValue k q = ⌈q.toRat⌉) := by
  constructor
  · intro hk hfit
    unfold specValue ResourceCPU
    rw [if_pos hk]
    exact milliValue_eq_ceil q hwf hnn hfit
  · intro hk hfit
    unfold specValue ResourceCPU
    rw [if_neg hk]
    exact value_eq_ceil q hwf hnn hfit

theorem toRat_q500m : q500m.toRat = 1 / 2 := by
  simp only [Quantity.toRat, q500m]
  norm_num

theorem toRat_q128Mi : q128Mi.toRat = 134217728 := by
  simp only [Quantity.toRat, q128Mi]
  norm_num

theorem toRat_q1500u : q1500u.toRat = 3 / 2000 := by
  simp only [Quantity.toRat, q1500u]
  norm_num

theorem toRat_q10E15 : q10E15.toRat = 10000000000000000 := by
  simp only [Quantity.toRat, q10E15]
  norm_num

theorem toRat_q1E16 : q1E16.toRat = 10000000000000000 := by
  simp only [Quantity.toRat, q1E16]
  norm_num

theorem toRat_q1500m : q1500m.toRat = 3 / 2 := by
  simp only [Quantity.toRat, q1500m]
  norm_num

theorem toRat_qMinusTenthNano : qMinusTenthNano.toRat = -1 / 1000000000 := by
  simp only [Quantity.toRat, qMinusTenthNano]
  norm_num

theorem toRat_q2 : q2.toRat = 2 := by
  simp only [Quantity.toRat, q2]
  norm_num

theorem toRat_q1G : q1G.toRat = 1000000000 := by
  simp only [Quantity.toRat, q1G]
  norm_num

theorem toRat_qDecimalCpu : qDecimalCpu.toRat = 1500001 / 1000000000 := by
  simp only [Quantity.toRat, qDecimalCpu]
  norm_num

/-- C7, counterexample: a CPU request of ten to the sixteenth cores is emitted as
-8446744073709551616, the product with 1000 wrapped into an `int64`, not as that product;
a memory request of `1500m` is emitted as 2, not as one and a half; and a CPU request of
`-0.1n` is emitted as 1 although the quantity is negative. -/
theorem getSpecMetricsForContainer_value_not_exact :
    (Sigma.mk "cpu" q1E16 ∈ cOverflowCpu.Resources.Requests.entries ∧
      timeSeriesOf containerRequestMetric (getSpecMetricsForContainer cOverflowCpu) =
        [{ LabelValues := [{ Value := "cpu" }], Value := -8446744073709551616 }] ∧
      q1E16.toRat * 1000 = 10000000000000000000) ∧
    (Sigma.mk "memory" q1500m ∈ cFractionalMemory.Resources.Requests.entries ∧
      timeSeriesOf containerRequestMetric (getSpecMetricsForContainer cFractionalMemory) =
        [{ LabelValues := [{ Value := "memory" }], Value := 2 }] ∧
      q1500m.toRat = 3 / 2) ∧
    (Sigma.mk "cpu" qMinusTenthNano ∈ cNegativeCpu.Resources.Requests.entries ∧
      timeSeriesOf containerRequestMetric (getSpecMetricsForContainer cNegativeCpu) =
        [{ LabelValues := [{ Value := "cpu" }], Value := 1 }] ∧
      qMinusTenthNano.toRat * 1000 = -1 / 1000000) := by
  refine ⟨⟨by decide, ?_, ?_⟩, ⟨by decide, ?_, toRat_q1500m⟩, ⟨by decide, ?_, ?_⟩⟩
  · rw [timeSeriesOf_request]
    decide
  · rw [toRat_q1E16]
    norm_num
  · rw [timeSeriesOf_request]
    decide
  · rw [timeSeriesOf_request]
    decide
  · rw [toRat_qMinusTenthNano]
    norm_num

/-- C7, amended: for every container and every entry `(k, q)` of its requests (resp.
limits) whose quantity is well-formed and not negative, the output has a request (resp.
limit) time series labelled `k`, and each such time series has the value `q * 1000`
rounded up to an integer when `k` is `cpu`, and `q` rounded up to an integer for every
other resource name, provided that integer fits in an `int64`; so the value is exactly
`q * 1000`, resp. `q`, whenever that is an integer that fits. -/
theorem getSpecMetricsForContainer_value (c : Container) (k : String) (q : Quantity)
    (hwf : q.WellFormed) (hnn : 0 ≤ q.toRat) :
    (Sigma.mk k q ∈ c.Resources.Requests.entries →
      (∃ ts ∈ timeSeriesOf containerRequestMetric (getSpecMetricsForContainer c),
        ts.LabelValues = [{ Value := k }]) ∧
      ∀ ts ∈ timeSeriesOf containerRequestMetric (getSpecMetricsForContainer c),
        ts.LabelValues = [{ Value := k }] →
        (k = "cpu" → InInt64 ⌈q.toRat * 1000⌉ → ts.Value = ⌈q.toRat * 1000⌉) ∧
        (k ≠ "cpu" → InInt64 ⌈q.toRat⌉ → ts.Value = ⌈q.toRat⌉) ∧
        (k = "cpu" → ∀ n : Int, q.toRat * 1000 = n → InInt64 n → ts.Value = n) ∧
        (k ≠ "cpu" → ∀ n : Int, q.toRat = n → InInt64 n → ts.Value = n)) ∧
    (Sigma.mk k q ∈ c.Resources.Limits.entries →
      (∃ ts ∈ timeSeriesOf containerLimitMetric (getSpecMetricsForContainer c),
        ts.LabelValues = [{ Value := k }]) ∧
      ∀ ts ∈ timeSeriesOf containerLimitMetric (getSpecMetricsForContainer c),
        ts.LabelValues = [{ Value := k }] →
        (k = "cpu" → InInt64 ⌈q.toRat * 1000⌉ → ts.Value = ⌈q.toRat * 1000⌉) ∧
        (k ≠ "cpu" → InInt64 ⌈q.toRat⌉ → ts.Value = ⌈q.toRat⌉) ∧
        (k = "cpu" → ∀ n : Int, q.toRat * 1000 = n → InInt64 n → ts.Value = n) ∧
        (k ≠ "cpu" → ∀ n : Int, q.toRat = n → InInt64 n → ts.Value = n)) := by
  obtain ⟨hcpu, hother⟩ := specValue_eq_ceil k q hwf hnn
  have hcpuInt : k = "cpu" → ∀ n : Int, q.toRat * 1000 = n → InInt64 n →
      specValue k q = n := by
    intro hk n hn hfit
    have hc : ⌈q.toRat * 1000⌉ = n := by rw [hn, Int.ceil_intCast]
    rw [hcpu hk (hc ▸ hfit), hc]
  have hotherInt : k ≠ "cpu" → ∀ n : Int, q.toRat = n → InInt64 n → specValue k q = n := by
    intro hk n hn hfit
    have hc : ⌈q.toRat⌉ = n := by rw [hn, Int.ceil_intCast]
    rw [hother hk (hc ▸ hfit), hc]
  constructor
  · intro hmem
    rw [timeSeriesOf_request]
    obtain ⟨hex, hall⟩ := series_of_entry _ k q hmem
    refine ⟨hex, fun ts hts hlab => ?_⟩
    rw [hall ts hts hlab]
    exact ⟨hcpu, hother, hcpuInt, hotherInt⟩
  · intro hmem
    rw [timeSeriesOf_limit]
    obtain ⟨hex, hall⟩ := series_of_entry _ k q hmem
    refine ⟨hex, fun ts hts hlab => ?_⟩
    rw [hall ts hts hlab]
    exact ⟨hcpu, hother, hcpuInt, hotherInt⟩

/-- C7, at concrete inputs: requests `cpu: 500m` and `memory: 128Mi` give the value 500 for
`cpu`, not 1, and 134217728 for `memory`, not a thousand times that; limits `cpu: 2` and
`memory: 1G` give 2000 and 1000000000. -/
theorem getSpecMetricsForContainer_value_witness :
    (q500m.WellFormed ∧ 0 ≤ q500m.toRat ∧
      Sigma.mk "cpu" q500m ∈ cCpuMemory.Resources.Requests.entries ∧
      ∀ ts ∈ timeSeriesOf containerRequestMetric (getSpecMetricsForContainer cCpuMemory),
        ts.LabelValues = [{ Value := "cpu" }] → ts.Value = 500 ∧ ts.Value ≠ 1) ∧
    (q128Mi.WellFormed ∧ 0 ≤ q128Mi.toRat ∧
      Sigma.mk "memory" q128Mi ∈ cCpuMemory.Resources.Requests.entries ∧
      ∀ ts ∈ timeSeriesOf containerRequestMetric (getSpecMetricsForContainer cCpuMemory),
        ts.LabelValues = [{ Value := "memory" }] →
          ts.Value = 134217728 ∧ ts.Value ≠ 134217728000) ∧
    (q2.WellFormed ∧ 0 ≤ q2.toRat ∧
      Sigma.mk "cpu" q2 ∈ cLimits.Resources.Limits.entries ∧
      ∀ ts ∈ timeSeriesOf containerLimitMetric (getSpecMetricsForContainer cLimits),
        ts.LabelValues = [{ Value := "cpu" }] → ts.Value = 2000) ∧
    (q1G.WellFormed ∧ 0 ≤ q1G.toRat ∧
      Sigma.mk "memory" q1G ∈ cLimits.Resources.Limits.entries ∧
      ∀ ts ∈ timeSeriesOf containerLimitMetric (getSpecMetricsForContainer cLimits),
        ts.LabelValues = [{ Value := "memory" }] → ts.Value = 1000000000) := by
  have n1 : 0 ≤ q500m.toRat := by rw [toRat_q500m]; norm_num
  have n2 : 0 ≤ q128Mi.toRat := by rw [toRat_q128Mi]; norm_num
  have n3 : 0 ≤ q2.toRat := by rw [toRat_q2]; norm_num
  have n4 : 0 ≤ q1G.toRat := by rw [toRat_q1G]; norm_num
  have m1 : Sigma.mk "cpu" q500m ∈ cCpuMemory.Resources.Requests.entries := by decide
  have m2 : Sigma.mk "memory" q128Mi ∈ cCpuMemory.Resources.Requests.entries := by decide
  have m3 : Sigma.mk "cpu" q2 ∈ cLimits.Resources.Limits.entries := by decide
  have m4 : Sigma.mk "memory" q1G ∈ cLimits.Resources.Limits.entries := by decide
  have h1 := ((getSpecMetricsForContainer_value cCpuMemory "cpu" q500m (by decide) n1).1 m1).2
  have h2 :=
    ((getSpecMetricsForContainer_value cCpuMemory "memory" q128Mi (by decide) n2).1 m2).2
  have h3 := ((getSpecMetricsForContainer_value cLimits "cpu" q2 (by decide) n3).2 m3).2
  have h4 := ((getSpecMetricsForContainer_value cLimits "memory" q1G (by decide) n4).2 m4).2
  refine ⟨⟨by decide, n1, m1, ?_⟩, ⟨by decide, n2, m2, ?_⟩, ⟨by decide, n3, m3, ?_⟩,
    ⟨by decide, n4, m4, ?_⟩⟩
  · intro ts hts hlab
    have h := (h1 ts hts hlab).2.2.1 rfl 500 (by rw [toRat_q500m]; norm_num) (by decide)
    rw [h]
    exact ⟨rfl, by decide⟩
  · intro ts hts hlab
    have h := (h2 ts hts hlab).2.2.2 (by decide) 134217728
      (by rw [toRat_q128Mi]; norm_num) (by decide)
    rw [h]
    exact ⟨rfl, by decide⟩
  · intro ts hts hlab
    exact (h3 ts hts hlab).2.2.1 rfl 2000 (by rw [toRat_q2]; norm_num) (by decide)
  · intro ts hts hlab
    exact (h4 ts hts hlab).2.2.2 (by decide) 1000000000
      (by rw [toRat_q1G]; norm_num) (by decide)

/-- C8, counterexample: a request of 1500 micro-cores is emitted as 2 milli-cores, while
the floor of 1.5 is 1: the value is rounded up, not truncated. (A request whose
milli-value exceeds every `int64`, such as `10E15` cores, is not emitted as that number
either, and the negative request `-0.1n` is emitted as 1, which is neither the floor, -1,
nor the ceiling, 0, of its milli-value.) -/
theorem getSpecMetricsForContainer_cpu_not_floor :
    Sigma.mk "cpu" q1500u ∈ cMicroCpu.Resources.Requests.entries ∧
    timeSeriesOf containerRequestMetric (getSpecMetricsForContainer cMicroCpu) =
      [{ LabelValues := [{ Value := "cpu" }], Value := 2 }] ∧
    ⌊q1500u.toRat * 1000⌋ = 1 ∧
    Sigma.mk "cpu" q10E15 ∈ cHugeCpu.Resources.Requests.entries ∧
    (∀ ts ∈ timeSeriesOf containerRequestMetric (getSpecMetricsForContainer cHugeCpu),
      InInt64 ts.Value) ∧
    ¬ InInt64 ⌊q10E15.toRat * 1000⌋ ∧
    Sigma.mk "cpu" qMinusTenthNano ∈ cNegativeCpu.Resources.Requests.entries ∧
    timeSeriesOf containerRequestMetric (getSpecMetricsForContainer cNegativeCpu) =
      [{ LabelValues := [{ Value := "cpu" }], Value := 1 }] ∧
    ⌊qMinusTenthNano.toRat * 1000⌋ = -1 ∧
    ⌈qMinusTenthNano.toRat * 1000⌉ = 0 := by
  have hfloor : ⌊q1500u.toRat * 1000⌋ = 1 := by
    rw [Int.floor_eq_iff, toRat_q1500u]
    norm_num
  have hhuge : ⌊q10E15.toRat * 1000⌋ = 10 ^ 19 := by
    rw [Int.floor_eq_iff, toRat_q10E15]
    norm_num
  have hnegf : ⌊qMinusTenthNano.toRat * 1000⌋ = -1 := by
    rw [Int.floor_eq_iff, toRat_qMinusTenthNano]
    norm_num
  have hnegc : ⌈qMinusTenthNano.toRat * 1000⌉ = 0 := by
    rw [Int.ceil_eq_iff, toRat_qMinusTenthNano]
    norm_num
  refine ⟨by decide, ?_, hfloor, by decide, ?_, ?_, by decide, ?_, hnegf, hnegc⟩
  · rw [timeSeriesOf_request]
    decide
  · rw [timeSeriesOf_request]
    decide
  · rw [hhuge]
    decide
  · rw [timeSeriesOf_request]
    decide

/-- C8, amended: for every well-formed CPU quantity `q` in a container's requests or
limits that is not negative and whose milli-value fits in an `int64`, quantities finer
than one milli-unit included, the value emitted for the `cpu` resource is `q * 1000`
rounded up to an integer, the ceiling of `q * 1000`. -/
theorem getSpecMetricsForContainer_cpu_rounds_up (c : Container) (q : Quantity)
    (hwf : q.WellFormed) (hnn : 0 ≤ q.toRat) (hfit : InInt64 ⌈q.toRat * 1000⌉) :
    (Sigma.mk "cpu" q ∈ c.Resources.Requests.entries →
      (∃ ts ∈ timeSeriesOf containerRequestMetric (getSpecMetricsForContainer c),
        ts.LabelValues = [{ Value := "cpu" }]) ∧
      ∀ ts ∈ timeSeriesOf containerRequestMetric (getSpecMetricsForContainer c),
        ts.LabelValues = [{ Value := "cpu" }] →
        ts.Value = ⌈q.toRat * 1000⌉ ∧ InInt64 ts.Value) ∧
    (Sigma.mk "cpu" q ∈ c.Resources.Limits.entries →
      (∃ ts ∈ timeSeriesOf containerLimitMetric (getSpecMetricsForContainer c),
        ts.LabelValues = [{ Value := "cpu" }]) ∧
      ∀ ts ∈ timeSeriesOf containerLimitMetric (getSpecMetricsForContainer c),
        ts.LabelValues = [{ Value := "cpu" }] →
        ts.Value = ⌈q.toRat * 1000⌉ ∧ InInt64 ts.Value) := by
  have hval : specValue "cpu" q = ⌈q.toRat * 1000⌉ :=
    (specValue_eq_ceil "cpu" q hwf hnn).1 rfl hfit
  constructor
  · intro hmem
    rw [timeSeriesOf_request]
    obtain ⟨hex, hall⟩ := series_of_entry _ "cpu" q hmem
    refine ⟨hex, fun ts hts hlab => ?_⟩
    rw [hall ts hts hlab, hval]
    exact ⟨rfl, hfit⟩
  · intro hmem
    rw [timeSeriesOf_limit]
    obtain ⟨hex, hall⟩ := series_of_entry _ "cpu" q hmem
    refine ⟨hex, fun ts hts hlab => ?_⟩
    rw [hall ts hts hlab, hval]
    exact ⟨rfl, hfit⟩

/-- C8, at concrete inputs: a request of 1500 micro-cores is emitted as the ceiling of
1.5, which is 2; so is a limit of 1500001 nano-cores held as a big decimal. -/
theorem getSpecMetricsForContainer_cpu_rounds_up_witness :
    (q1500u.WellFormed ∧ 0 ≤ q1500u.toRat ∧ InInt64 ⌈q1500u.toRat * 1000⌉ ∧
      Sigma.mk "cpu" q1500u ∈ cMicroCpu.Resources.Requests.entries ∧
      (∀ ts ∈ timeSeriesOf containerRequestMetric (getSpecMetricsForContainer cMicroCpu),
        ts.LabelValues = [{ Value := "cpu" }] → ts.Value = 2)) ∧
    (qDecimalCpu.WellFormed ∧ 0 ≤ qDecimalCpu.toRat ∧ InInt64 ⌈qDecimalCpu.toRat * 1000⌉ ∧
      Sigma.mk "cpu" qDecimalCpu ∈ cDecimalCpu.Resources.Limits.entries ∧
      (∀ ts ∈ timeSeriesOf containerLimitMetric (getSpecMetricsForContainer cDecimalCpu),
        ts.LabelValues = [{ Value := "cpu" }] → ts.Value = 2)) := by
  have c1 : ⌈q1500u.toRat * 1000⌉ = 2 := by
    rw [Int.ceil_eq_iff, toRat_q1500u]
    norm_num
  have c2 : ⌈qDecimalCpu.toRat * 1000⌉ = 2 := by
    rw [Int.ceil_eq_iff, toRat_qDecimalCpu]
    norm_num
  have n1 : 0 ≤ q1500u.toRat := by rw [toRat_q1500u]; norm_num
  have n2 : 0 ≤ qDecimalCpu.toRat := by rw [toRat_qDecimalCpu]; norm_num
  have f1 : InInt64 ⌈q1500u.toRat * 1000⌉ := by rw [c1]; decide
  have f2 : InInt64 ⌈qDecimalCpu.toRat * 1000⌉ := by rw [c2]; decide
  have m1 : Sigma.mk "cpu" q1500u ∈ cMicroCpu.Resources.Requests.entries := by decide
  have m2 : Sigma.mk "cpu" qDecimalCpu ∈ cDecimalCpu.Resources.Limits.entries := by decide
  have h1 :=
    ((getSpecMetricsForContainer_cpu_rounds_up cMicroCpu q1500u (by decide) n1 f1).1 m1).2
  have h2 :=
    ((getSpecMetricsForContainer_cpu_rounds_up cDecimalCpu qDecimalCpu (by decide) n2 f2).2
      m2).2
  refine ⟨⟨by decide, n1, f1, m1, ?_⟩, ⟨by decide, n2, f2, m2, ?_⟩⟩
  · intro ts hts hlab
    rw [(h1 ts hts hlab).1, c1]
  · intro ts hts hlab
    rw [(h2 ts hts hlab).1, c2]

/-! ## Labels and resources -/

theorem heap_get_append_new (cells : List StringMap) (m : StringMap) :
    MapHeap.get { cells := cells ++ [m] } (some cells.length) = m := by
  simp [MapHeap.get]

theorem heap_assign_new (cells : List StringMap) (m : StringMap) (k v : String) :
    MapHeap.assign { cells := cells ++ [m] } (some cells.length) k v =
      some { cells := cells ++ [m.insert k v] } := by
  unfold MapHeap.assign
  have hlt : cells.length < (cells ++ [m]).length := by simp
  simp only [hlt, if_true, heap_get_append_new]
  congr 2
  simp

/-- The result of `getAllContainerLabels`: it never panics, the heap grows by one map,
the merged labels, and the returned reference points to it. -/
theorem getAllContainerLabels_eq (K : SharedKeys) (cs : ContainerStatus) (h : MapHeap)
    (dims : MapRef) :
    getAllContainerLabels K cs h dims =
      some ({ cells := h.cells ++ [mergedLabels K cs (h.get dims)] }, some h.cells.length) := by
  unfold getAllContainerLabels CloneStringMap MapHeap.alloc mergedLabels
  simp only [bind, Option.bind, heap_assign_new, pure]

theorem heap_get_append_old (cells : List StringMap) (m : StringMap) (r : MapRef)
    (hr : MapHeap.Valid { cells := cells } r) :
    MapHeap.get { cells := cells ++ [m] } r = MapHeap.get { cells := cells } r := by
  cases r with
  | none => rfl
  | some i =>
    have hi : i < cells.length := hr
    simp [MapHeap.get, List.getElem?_append_left hi]

theorem mergedLabels_lookup (K : SharedKeys) (cs : ContainerStatus) (dims : StringMap) :
    (mergedLabels K cs dims).lookup K.AttributeContainerImage = some cs.Image ∧
    (K.containerKeySpecName ≠ K.AttributeContainerImage →
      (mergedLabels K cs dims).lookup K.containerKeySpecName = some cs.Name) ∧
    (K.containerKeyID ≠ K.containerKeySpecName → K.containerKeyID ≠ K.AttributeContainerImage →
      (mergedLabels K cs dims).lookup K.containerKeyID =
        some (StripContainerID cs.ContainerID)) ∧
    ∀ k, k ≠ K.containerKeyID → k ≠ K.containerKeySpecName → k ≠ K.AttributeContainerImage →
      (mergedLabels K cs dims).lookup k = dims.lookup k := by
  unfold mergedLabels
  refine ⟨Finmap.lookup_insert _, ?_, ?_, ?_⟩
  · intro h
    rw [Finmap.lookup_insert_of_ne _ h]
    exact Finmap.lookup_insert _
  · intro h1 h2
    rw [Finmap.lookup_insert_of_ne _ h2, Finmap.lookup_insert_of_ne _ h1]
    exact Finmap.lookup_insert _
  · intro k h1 h2 h3
    rw [Finmap.lookup_insert_of_ne _ h3, Finmap.lookup_insert_of_ne _ h2,
      Finmap.lookup_insert_of_ne _ h1]

/-- C11: for every container status, every inherited map and every key, with the three
container-level keys being different constants: `getAllContainerLabels` returns a map
that holds the prefix-stripped container ID under `containerKeyID`, the container name
under `containerKeySpecName` and the image under the container image key, whatever the
inherited map holds under these keys; under every other key it holds exactly what the
inherited map holds there, if anything. -/
theorem getAllContainerLabels_labels (K : SharedKeys) (cs : ContainerStatus) (h : MapHeap)
    (dims : MapRef) (hK : K.Distinct) :
    ∃ (h' : MapHeap) (out : MapRef),
      getAllContainerLabels K cs h dims = some (h', out) ∧
      (h'.get out).lookup K.containerKeyID = some (StripContainerID cs.ContainerID) ∧
      (h'.get out).lookup K.containerKeySpecName = some cs.Name ∧
      (h'.get out).lookup K.AttributeContainerImage = some cs.Image ∧
      ∀ k, k ≠ K.containerKeyID → k ≠ K.containerKeySpecName →
        k ≠ K.AttributeContainerImage →
        (h'.get out).lookup k = (h.get dims).lookup k := by
  obtain ⟨h12, h13, h23⟩ := hK
  obtain ⟨l3, l2, l1, lk⟩ := mergedLabels_lookup K cs (h.get dims)
  refine ⟨_, _, getAllContainerLabels_eq K cs h dims, ?_, ?_, ?_, ?_⟩
  · rw [heap_get_append_new]
    exact l1 h12 h13
  · rw [heap_get_append_new]
    exact l2 h23
  · rw [heap_get_append_new]
    exact l3
  · rw [heap_get_append_new]
    exact lk

/-- C11, at a concrete input: the inherited map holds `pod`, `zone` and a stale
container ID. -/
theorem getAllContainerLabels_labels_witness :
    sampleKeys.Distinct ∧
    ∃ (h' : MapHeap) (out : MapRef),
      getAllContainerLabels sampleKeys csSample heapSample (some 0) = some (h', out) ∧
      (h'.get out).lookup sampleKeys.containerKeyID =
        some (StripContainerID csSample.ContainerID) ∧
      (h'.get out).lookup sampleKeys.containerKeySpecName = some csSample.Name ∧
      (h'.get out).lookup sampleKeys.AttributeContainerImage = some csSample.Image ∧
      ∀ k, k ≠ sampleKeys.containerKeyID → k ≠ sampleKeys.containerKeySpecName →
        k ≠ sampleKeys.AttributeContainerImage →
        (h'.get out).lookup k = (heapSample.get (some 0)).lookup k :=
  ⟨by decide,
    getAllContainerLabels_labels sampleKeys csSample heapSample (some 0) (by decide)⟩

/-- C12: for every container status and every inherited map, after
`getAllContainerLabels` returns, the inherited map holds exactly what it held before the
call: the returned map is another, newly allocated one, the three assignments go to it,
and every map that existed before the call is unchanged. -/
theorem getAllContainerLabels_frame (K : SharedKeys) (cs : ContainerStatus) (h : MapHeap)
    (dims : MapRef) (hv : h.Valid dims) :
    ∃ (h' : MapHeap) (out : MapRef),
      getAllContainerLabels K cs h dims = some (h', out) ∧
      h'.get dims = h.get dims ∧
      out ≠ dims ∧
      ¬ h.Valid out ∧
      ∀ r, h.Valid r → h'.get r = h.get r := by
  refine ⟨_, _, getAllContainerLabels_eq K cs h dims, ?_, ?_, ?_, ?_⟩
  · exact heap_get_append_old h.cells _ dims hv
  · intro heq
    rw [← heq] at hv
    exact Nat.lt_irrefl _ hv
  · intro hv2
    exact Nat.lt_irrefl _ hv2
  · intro r hr
    exact heap_get_append_old h.cells _ r hr

/-- C12, at a concrete input: the inherited map already holds a container ID. -/
theorem getAllContainerLabels_frame_witness :
    heapSample.Valid (some 0) ∧
    ∃ (h' : MapHeap) (out : MapRef),
      getAllContainerLabels sampleKeys csSample heapSample (some 0) = some (h', out) ∧
      h'.get (some 0) = heapSample.get (some 0) ∧
      out ≠ some 0 ∧
      ¬ heapSample.Valid out ∧
      ∀ r, heapSample.Valid r → h'.get r = heapSample.get r :=
  ⟨by decide,
    getAllContainerLabels_frame sampleKeys csSample heapSample (some 0) (by decide)⟩

/-- C15: for every label map, `getResourceForContainer` returns a resource whose type tag
is the container entity type, `container`, and whose labels are exactly the given map;
applied to the result of `getAllContainerLabels` it carries exactly the merged labels:
the inherited ones with the container ID, the container name and the image assigned. -/
theorem getResourceForContainer_labels (K : SharedKeys) (cs : ContainerStatus) (h : MapHeap)
    (dims m : MapRef) :
    (getResourceForContainer m).Typ = "container" ∧
    (getResourceForContainer m).Typ = containerType ∧
    (getResourceForContainer m).Labels = m ∧
    h.get (getResourceForContainer m).Labels = h.get m ∧
    ∃ (h' : MapHeap) (out : MapRef),
      getAllContainerLabels K cs h dims = some (h', out) ∧
      (getResourceForContainer out).Typ = "container" ∧
      (getResourceForContainer out).Labels = out ∧
      h'.get (getResourceForContainer out).Labels =
        (((h.get dims).insert K.containerKeyID (StripContainerID cs.ContainerID)).insert
          K.containerKeySpecName cs.Name).insert K.AttributeContainerImage cs.Image := by
  refine ⟨rfl, rfl, rfl, rfl, _, _, getAllContainerLabels_eq K cs h dims, rfl, rfl, ?_⟩
  show MapHeap.get _ (some h.cells.length) = _
  rw [heap_get_append_new]
  rfl

/-- C16: for every container status and every inherited map, the metadata record and the
labels agree on the identity of the container: the labels returned by
`getAllContainerLabels` hold, under the identity key of `getMetadataForContainer`, exactly
its identity value, whatever the inherited map holds under that key. The identity key is
a constant different from the name key and the image key. -/
theorem getAllContainerLabels_identity_agrees (K : SharedKeys) (cs : ContainerStatus)
    (h : MapHeap) (dims : MapRef) (hname : K.containerKeyID ≠ K.containerKeySpecName)
    (himage : K.containerKeyID ≠ K.AttributeContainerImage) :
    ∃ (h' : MapHeap) (out : MapRef),
      getAllContainerLabels K cs h dims = some (h', out) ∧
      (h'.get out).lookup (getMetadataForContainer K cs).resourceIDKey =
        some (getMetadataForContainer K cs).resourceID := by
  refine ⟨_, _, getAllContainerLabels_eq K cs h dims, ?_⟩
  rw [heap_get_append_new]
  exact (mergedLabels_lookup K cs (h.get dims)).2.2.1 hname himage

/-- C16, at a concrete input: the inherited map holds a stale container ID. -/
theorem getAllContainerLabels_identity_agrees_witness :
    (heapSample.get (some 0)).lookup sampleKeys.containerKeyID = some "stale" ∧
    ∃ (h' : MapHeap) (out : MapRef),
      getAllContainerLabels sampleKeys csSample heapSample (some 0) = some (h', out) ∧
      (h'.get out).lookup (getMetadataForContainer sampleKeys csSample).resourceIDKey =
        some (getMetadataForContainer sampleKeys csSample).resourceID :=
  ⟨by
      show (StringMap.ofList [("pod", "p1"), ("zone", "a"), ("container.id", "stale")]).lookup
        "container.id" = some "stale"
      simp only [StringMap.ofList, List.foldl_cons, List.foldl_nil]
      exact Finmap.lookup_insert _,
    getAllContainerLabels_identity_agrees sampleKeys csSample heapSample (some 0)
      (by decide) (by decide)⟩

/-! ## Label values and descriptors -/

/-- C13: every time series produced by `getStatusMetricsForContainer` and by
`getSpecMetricsForContainer` has as many label values as the descriptor of its metric
declares label keys: none for the restart and the readiness metric, and exactly one, the
name of a declared resource under the key `resource`, for the request and limit
metrics. -/
theorem label_values_match_label_keys (cs : ContainerStatus) (c : Container) :
    (∀ m ∈ getStatusMetricsForContainer cs, ∀ ts ∈ m.Timeseries,
      ts.LabelValues.length = m.MetricDescriptor.LabelKeys.length ∧
      m.MetricDescriptor.LabelKeys = [] ∧ ts.LabelValues = []) ∧
    (∀ m ∈ getSpecMetricsForContainer c, ∀ ts ∈ m.Timeseries,
      ts.LabelValues.length = m.MetricDescriptor.LabelKeys.length ∧
      m.MetricDescriptor.LabelKeys = [{ Key := "resource" }] ∧
      ∃ k, (k ∈ c.Resources.Requests.keys ∨ k ∈ c.Resources.Limits.keys) ∧
        ts.LabelValues = [{ Value := k }]) := by
  constructor
  · intro m hm ts hts
    unfold getStatusMetricsForContainer at hm
    simp only [List.mem_cons, List.mem_singleton, List.not_mem_nil, or_false] at hm
    rcases hm with rfl | rfl
    · simp only [List.mem_singleton] at hts
      subst hts
      exact ⟨rfl, rfl, rfl⟩
    · simp only [List.mem_singleton] at hts
      subst hts
      exact ⟨rfl, rfl, rfl⟩
  · intro m hm ts hts
    rw [getSpecMetricsForContainer_eq, List.mem_append, List.mem_map, List.mem_map] at hm
    rcases hm with ⟨kv, hkv, rfl⟩ | ⟨kv, hkv, rfl⟩
    · simp only [List.mem_singleton] at hts
      subst hts
      exact ⟨rfl, rfl, kv.1, Or.inl (List.mem_keys_of_mem hkv), rfl⟩
    · simp only [List.mem_singleton] at hts
      subst hts
      exact ⟨rfl, rfl, kv.1, Or.inr (List.mem_keys_of_mem hkv), rfl⟩

/-- C14: the descriptor catalog consists of four descriptors with pairwise distinct
names, all of the type integer gauge: the restart descriptor has unit `1` and no label
keys, the readiness descriptor has an empty unit and no label keys, and the request and
limit descriptors each declare exactly one label key, `resource`. -/
theorem descriptor_catalog :
    ([containerRestartMetric, containerReadyMetric, containerRequestMetric,
        containerLimitMetric].map (fun d => d.Name)).Nodup ∧
    (∀ d ∈ [containerRestartMetric, containerReadyMetric, containerRequestMetric,
        containerLimitMetric], d.Typ = MetricDescriptorType.GAUGE_INT64) ∧
    containerRestartMetric.Unit = "1" ∧ containerRestartMetric.LabelKeys = [] ∧
    containerReadyMetric.Unit = "" ∧ containerReadyMetric.LabelKeys = [] ∧
    containerRequestMetric.LabelKeys = [{ Key := "resource" }] ∧
    containerLimitMetric.LabelKeys = [{ Key := "resource" }] := by
  refine ⟨by decide, ?_, rfl, rfl, rfl, rfl, rfl, rfl⟩
  intro d hd
  simp only [List.mem_cons, List.mem_singleton, List.not_mem_nil, or_false] at hd
  rcases hd with rfl | rfl | rfl | rfl <;> rfl

/-! ## Behaviour with several markers, and the order of the spec metrics -/

/-- C17: for every container status whose Waiting marker is set, whatever the other
markers are, the properties of `getMetadataForContainer` are exactly the status `waiting`
with the Waiting reason; and when Terminated is set and Waiting is not, they are exactly
the status `terminated` with the Terminated reason, also when Running is set too. -/
theorem getMetadataForContainer_later_overwrites (K : SharedKeys) (cs : ContainerStatus) :
    (∀ w, cs.State.Waiting = some w →
      (getMetadataForContainer K cs).properties =
        StringMap.ofList [(containerKeyStatus, "waiting"),
          (containerKeyStatusReason, w.Reason)]) ∧
    (∀ t, cs.State.Terminated = some t → cs.State.Waiting = none →
      (getMetadataForContainer K cs).properties =
        StringMap.ofList [(containerKeyStatus, "terminated"),
          (containerKeyStatusReason, t.Reason)]) := by
  constructor
  · intro w hW
    have hp := properties_eq K cs
    rw [hW] at hp
    exact hp
  · intro t hT hW
    have hp := properties_eq K cs
    rw [hT, hW] at hp
    exact hp

/-- C17, at concrete inputs: a status with all three markers, and one with Running and
Terminated. -/
theorem getMetadataForContainer_later_overwrites_witness :
    (csAllMarkers.State.Running ≠ none ∧ csAllMarkers.State.Terminated ≠ none ∧
      (getMetadataForContainer sampleKeys csAllMarkers).properties =
        StringMap.ofList [(containerKeyStatus, "waiting"),
          (containerKeyStatusReason, "CrashLoopBackOff")]) ∧
    (csRunningTerminated.State.Running ≠ none ∧
      (getMetadataForContainer sampleKeys csRunningTerminated).properties =
        StringMap.ofList [(containerKeyStatus, "terminated"),
          (containerKeyStatusReason, "OOMKilled")]) :=
  ⟨⟨by decide, by decide,
      (getMetadataForContainer_later_overwrites sampleKeys csAllMarkers).1
        { Reason := "CrashLoopBackOff" } rfl⟩,
    ⟨by decide,
      (getMetadataForContainer_later_overwrites sampleKeys csRunningTerminated).2
        { Reason := "OOMKilled" } rfl rfl⟩⟩

/-- C18: for every container, in the list returned by `getSpecMetricsForContainer` every
metric with the request descriptor comes before every metric with the limit descriptor,
whatever the iteration order of the two mappings: the first |Requests| elements have the
request descriptor and the remaining |Limits| elements the limit descriptor. -/
theorem getSpecMetricsForContainer_requests_first (c : Container) :
    (getSpecMetricsForContainer c).length =
      c.Resources.Requests.entries.length + c.Resources.Limits.entries.length ∧
    (∀ m ∈ (getSpecMetricsForContainer c).take c.Resources.Requests.entries.length,
      m.MetricDescriptor = containerRequestMetric) ∧
    (∀ m ∈ (getSpecMetricsForContainer c).drop c.Resources.Requests.entries.length,
      m.MetricDescriptor = containerLimitMetric) ∧
    ((getSpecMetricsForContainer c).drop c.Resources.Requests.entries.length).length =
      c.Resources.Limits.entries.length ∧
    (getSpecMetricsForContainer c).map (fun m => m.MetricDescriptor) =
      List.replicate c.Resources.Requests.entries.length containerRequestMetric ++
        List.replicate c.Resources.Limits.entries.length containerLimitMetric ∧
    ∀ i j : Nat, ∀ a b : Metric,
      (getSpecMetricsForContainer c)[i]? = some a →
      (getSpecMetricsForContainer c)[j]? = some b →
      a.MetricDescriptor = containerRequestMetric →
      b.MetricDescriptor = containerLimitMetric → i < j := by
  have hmap : (getSpecMetricsForContainer c).map (fun m => m.MetricDescriptor) =
      List.replicate c.Resources.Requests.entries.length containerRequestMetric ++
        List.replicate c.Resources.Limits.entries.length containerLimitMetric := by
    rw [getSpecMetricsForContainer_eq, List.map_append, List.map_map, List.map_map]
    simp [Function.comp_def, List.map_const']
  have htake : (getSpecMetricsForContainer c).take c.Resources.Requests.entries.length =
      c.Resources.Requests.entries.map (fun kv =>
        ({ MetricDescriptor := containerRequestMetric
           Timeseries := [{ LabelValues := [{ Value := kv.1 }],
                            Value := specValue kv.1 kv.2 }] } : Metric)) := by
    rw [getSpecMetricsForContainer_eq]
    exact List.take_left' (by simp)
  have hdrop : (getSpecMetricsForContainer c).drop c.Resources.Requests.entries.length =
      c.Resources.Limits.entries.map (fun kv =>
        ({ MetricDescriptor := containerLimitMetric
           Timeseries := [{ LabelValues := [{ Value := kv.1 }],
                            Value := specValue kv.1 kv.2 }] } : Metric)) := by
    rw [getSpecMetricsForContainer_eq]
    exact List.drop_left' (by simp)
  refine ⟨?_, ?_, ?_, ?_, hmap, ?_⟩
  · rw [getSpecMetricsForContainer_eq, List.length_append, List.length_map, List.length_map]
  · intro m hm
    rw [htake, List.mem_map] at hm
    obtain ⟨kv, -, rfl⟩ := hm
    rfl
  · intro m hm
    rw [hdrop, List.mem_map] at hm
    obtain ⟨kv, -, rfl⟩ := hm
    rfl
  · rw [hdrop, List.length_map]
  · intro i j a b ha hb hda hdb
    by_contra hij
    have hji : j ≤ i := Nat.le_of_not_lt hij
    rw [getSpecMetricsForContainer_eq] at ha hb
    by_cases hi : i < c.Resources.Requests.entries.length
    · have hj : j < (c.Resources.Requests.entries.map (fun kv =>
          ({ MetricDescriptor := containerRequestMetric
             Timeseries := [{ LabelValues := [{ Value := kv.1 }],
                              Value := specValue kv.1 kv.2 }] } : Metric))).length := by
        rw [List.length_map]
        omega
      rw [List.getElem?_append_left hj, List.getElem?_map] at hb
      cases hq : c.Resources.Requests.entries[j]? with
      | none => rw [hq] at hb; exact Option.noConfusion hb
      | some kv =>
        rw [hq] at hb
        injection hb with hb
        subst hb
        exact request_ne_limit hdb
    · have hi2 : (c.Resources.Requests.entries.map (fun kv =>
          ({ MetricDescriptor := containerRequestMetric
             Timeseries := [{ LabelValues := [{ Value := kv.1 }],
                              Value := specValue kv.1 kv.2 }] } : Metric))).length ≤ i := by
        rw [List.length_map]
        omega
      rw [List.getElem?_append_right hi2, List.getElem?_map] at ha
      cases hq : c.Resources.Limits.entries[i -
          (c.Resources.Requests.entries.map (fun kv =>
            ({ MetricDescriptor := containerRequestMetric
               Timeseries := [{ LabelValues := [{ Value := kv.1 }],
                                Value := specValue kv.1 kv.2 }] } : Metric))).length]? with
      | none => rw [hq] at ha; exact Option.noConfusion ha
      | some kv =>
        rw [hq] at ha
        injection ha with ha
        subst ha
        exact request_ne_limit hda.symm

end K8sCluster

namespace JMXMetricExtension

/-- C19: `createDefaultConfig` returns a configuration whose type and name are both
`jmx_metrics`, with the JAR path `/opt/opentelemetry-java-contrib-jmx-metrics.jar`, a
collection interval of 10 seconds, the exporter `otlp`, the OTLP endpoint
`localhost:55680`, an OTLP timeout of 5 seconds, the Prometheus host `localhost` and the
Prometheus port 9090; two calls return equal configurations. -/
theorem createDefaultConfig_defaults :
    (createDefaultConfig ()).ExtensionSettings.TypeVal = "jmx_metrics" ∧
    (createDefaultConfig ()).ExtensionSettings.NameVal = "jmx_metrics" ∧
    (createDefaultConfig ()).JARPath = "/opt/opentelemetry-java-contrib-jmx-metrics.jar" ∧
    (createDefaultConfig ()).Interval = 10 * Second ∧
    (createDefaultConfig ()).Interval = 10000000000 ∧
    (createDefaultConfig ()).Exporter = "otlp" ∧
    (createDefaultConfig ()).OTLPEndpoint = "localhost:55680" ∧
    (createDefaultConfig ()).OTLPTimeout = 5 * Second ∧
    (createDefaultConfig ()).OTLPTimeout = 5000000000 ∧
    (createDefaultConfig ()).PrometheusHost = "localhost" ∧
    (createDefaultConfig ()).PrometheusPort = 9090 ∧
    ∀ first second : Unit, createDefaultConfig first = createDefaultConfig second := by
  refine ⟨rfl, rfl, rfl, rfl, by decide, rfl, rfl, rfl, by decide, rfl, rfl, ?_⟩
  intro first second
  rfl

end JMXMetricExtension
